import Mathlib

/-!
# BeeVDP: the TMS9918A core (`beevdp.h`, `beevdp.cpp`)

A shallow embedding of the `TMS9918A` class.  The object's private members
become the fields of a structure, every member function becomes a function
on that structure, and results of non-`void` functions are returned next to
the new state.

Conventions of the embedding.
* Machine integers are naturals; a narrowing assignment to `uint16_t` or
  `uint8_t` is written with an explicit `% 65536` or `% 256`.  Arguments of
  type `uint8_t` are naturals, and the theorems say `d < 256` where they
  speak about a byte.
* `std::array` members are total functions on the naturals.  The array
  proper is the restriction to the indices below its size (`0x4000` for
  `vram`, `256` for `linebuffer`, `256 * 192` for `framebuffer`).
* `exit(0)` in `render_scanline` ends the process: functions that can reach
  it return an `Option`, and `none` means that the process has terminated.
* Writes to `cout` are not part of the state and are left out.
-/

namespace BeeVDP

/-! ## Data model (`beevdp.h`) -/

/-- The `BeeVDPRGB` struct: red, green and blue channel. -/
@[ext]
structure BeeVDPRGB where
  red : Nat := 0
  green : Nat := 0
  blue : Nat := 0
deriving DecidableEq, Repr

/-- The private members of class `TMS9918A`, in the order of `beevdp.h`. -/
@[ext]
structure TMS9918A where
  framebuffer : Nat → BeeVDPRGB
  render_line : Nat
  linebuffer : Nat → BeeVDPRGB
  is_second_control_write : Bool
  command_word : Nat
  addr_register : Nat
  code_register : Nat
  read_buffer : Nat
  vcounter : Nat
  is_vblank : Bool
  vram : Nat → Nat
  m2_bit : Bool
  m1_bit : Bool
  m3_bit : Bool
  mode_val : Nat
  is_vdp_enabled : Bool
  is_irq : Bool
  is_irq_gen : Bool
  pattern_name : Nat
  color_table : Nat
  pattern_gen : Nat
  text_color : Nat
  backdrop_color : Nat

/-- The template helper `testbit`: `((reg >> bit) & 1) ? true : false`. -/
def testbit (reg bit : Nat) : Bool :=
  ((reg >>> bit) &&& 1) != 0

/-- The template helper `inRange`: `(val >= low) && (val < high)`. -/
def inRange (val low high : Nat) : Bool :=
  decide (low ≤ val) && decide (val < high)

/-- Width of the framebuffer, `getWidth`. -/
def getWidth : Nat := 256

/-- Height of the framebuffer, `getHeight`. -/
def getHeight : Nat := 192

/-- Number of scanlines of a frame, `numScanlines`. -/
def numScanlines : Nat := 262

/-- A device as the constructor leaves it: the constructor body is empty, so
every scalar member has its default member initialiser and the three arrays
hold whatever the storage held. -/
def fresh (vram : Nat → Nat) (fb lb : Nat → BeeVDPRGB) : TMS9918A :=
  { framebuffer := fb
    render_line := 0
    linebuffer := lb
    is_second_control_write := false
    command_word := 0
    addr_register := 0
    code_register := 0
    read_buffer := 0
    vcounter := 0
    is_vblank := false
    vram := vram
    m2_bit := false
    m1_bit := false
    m3_bit := false
    mode_val := 0
    is_vdp_enabled := false
    is_irq := false
    is_irq_gen := false
    pattern_name := 0
    color_table := 0
    pattern_gen := 0
    text_color := 0
    backdrop_color := 0 }

/-! ## Address unit and palette -/

/-- `TMS9918A::increment_addr`: the address register wraps to 0 after
`0x3FFF`; the `+= 1` is on a `uint16_t`. -/
def increment_addr (s : TMS9918A) : TMS9918A :=
  if s.addr_register = 0x3FFF then
    { s with addr_register := 0 }
  else
    { s with addr_register := (s.addr_register + 1) % 65536 }

/-- `TMS9918A::get_color`: the palette entry of `color_val & 0xF`. -/
def get_color (color_val : Nat) : BeeVDPRGB :=
  match color_val &&& 0xF with
  | 0 => ⟨0, 0, 0⟩
  | 1 => ⟨0, 0, 0⟩
  | 2 => ⟨33, 200, 66⟩
  | 3 => ⟨94, 200, 120⟩
  | 4 => ⟨84, 85, 237⟩
  | 5 => ⟨125, 118, 252⟩
  | 6 => ⟨212, 82, 77⟩
  | 7 => ⟨66, 235, 245⟩
  | 8 => ⟨252, 85, 84⟩
  | 9 => ⟨255, 121, 120⟩
  | 10 => ⟨212, 193, 84⟩
  | 11 => ⟨230, 206, 128⟩
  | 12 => ⟨33, 176, 59⟩
  | 13 => ⟨201, 91, 186⟩
  | 14 => ⟨204, 204, 204⟩
  | 15 => ⟨255, 255, 255⟩
  | _ => ⟨0, 0, 0⟩

/-! ## Scanline renderer -/

/-- `TMS9918A::set_pixel`: clip, then record the render line and store the
colour in the line buffer. -/
def set_pixel (xpos ypos : Nat) (color : BeeVDPRGB) (s : TMS9918A) : TMS9918A :=
  if !inRange xpos 0 getWidth || !inRange ypos 0 getHeight then
    s
  else
    { s with
      render_line := ypos
      linebuffer := Function.update s.linebuffer xpos color }

/-- `TMS9918A::render_backdrop`: the loop `for xpos in 0..255` that paints the
line buffer with the backdrop colour. -/
def render_backdrop (s : TMS9918A) : TMS9918A :=
  let vcount := s.vcounter
  (List.range 256).foldl
    (fun st xpos => set_pixel xpos vcount (get_color st.backdrop_color) st) s

/-- `TMS9918A::update_framebuffer`: copy the line buffer into row
`render_line` of the framebuffer, then fill the line buffer with black. -/
def update_framebuffer (s : TMS9918A) : TMS9918A :=
  if !inRange s.render_line 0 getHeight then
    s
  else
    let ypos := s.render_line
    let st := (List.range getWidth).foldl
      (fun st xpos =>
        let screen_pos := xpos + ypos * getWidth
        { st with
          framebuffer := Function.update st.framebuffer screen_pos (st.linebuffer xpos) })
      s
    { st with linebuffer := fun _ => ⟨0, 0, 0⟩ }

/-- `TMS9918A::render_disabled`. -/
def render_disabled (s : TMS9918A) : TMS9918A :=
  update_framebuffer (render_backdrop s)

/-- `TMS9918A::render_graphics1` (mode 0): 32 tiles of 8 pixels. -/
def render_graphics1 (s : TMS9918A) : TMS9918A :=
  let vcount := s.vcounter
  let name_base := s.pattern_name <<< 10
  let color_base := s.color_table <<< 6
  let pattern_base := s.pattern_gen <<< 11
  let ypos := (vcount >>> 3) <<< 5
  (List.range 32).foldl
    (fun st tile_col =>
      let name_addr := name_base + ypos + tile_col
      let name_byte := st.vram name_addr
      let pattern_addr := pattern_base + (name_byte <<< 3) + (vcount &&& 0x7)
      let pattern_byte := st.vram pattern_addr
      let color_addr := color_base + (name_byte >>> 3)
      let color_byte := st.vram color_addr
      (List.range 8).foldl
        (fun st2 pixel =>
          let xpos := (tile_col <<< 3) + pixel
          let colorline := 7 - pixel
          let pixel_color :=
            if testbit pattern_byte colorline then color_byte >>> 4 else color_byte &&& 0xF
          let pixel_color := if pixel_color = 0 then st2.backdrop_color else pixel_color
          let color := get_color pixel_color
          if xpos < getWidth then set_pixel xpos vcount color st2 else st2)
        st)
    s

/-- `TMS9918A::render_text1` (mode 1): 40 tiles of 6 pixels after a margin
of 8 pixels. -/
def render_text1 (s : TMS9918A) : TMS9918A :=
  let vcount := s.vcounter
  let name_base := s.pattern_name <<< 10
  let pattern_base := s.pattern_gen <<< 11
  let ypos := (vcount >>> 3) * 40
  (List.range 40).foldl
    (fun st tile_col =>
      let name_addr := name_base + ypos + tile_col
      let name_byte := st.vram name_addr
      let pattern_addr := pattern_base + (name_byte <<< 3) + (vcount &&& 0x7)
      let pattern_byte := st.vram pattern_addr
      (List.range 6).foldl
        (fun st2 pixel =>
          let xpos := (tile_col * 6) + (8 + pixel)
          let colorline := 7 - pixel
          let pixel_color :=
            if testbit pattern_byte colorline then st2.text_color else st2.backdrop_color
          let pixel_color := if pixel_color = 0 then st2.backdrop_color else pixel_color
          let color := get_color pixel_color
          if xpos < getWidth then set_pixel xpos vcount color st2 else st2)
        st)
    s

/-- `TMS9918A::render_graphics2` (mode 2): the body is a bare `return`. -/
def render_graphics2 (s : TMS9918A) : TMS9918A :=
  s

/-- `TMS9918A::render_scanline`.  The `default` branch of the switch calls
`exit(0)`: the result is `none`. -/
def render_scanline (s : TMS9918A) : Option TMS9918A :=
  if !s.is_vdp_enabled then
    some (render_disabled s)
  else
    let s1 := render_backdrop s
    match s1.mode_val with
    | 0 => some (update_framebuffer (render_graphics1 s1))
    | 1 => some (update_framebuffer (render_text1 s1))
    | 2 => some (update_framebuffer (render_graphics2 s1))
    | _ => none

/-! ## Register file -/

/-- `TMS9918A::update_mode`: `(m3_bit << 2) | (m2_bit << 1) | m1_bit`. -/
def update_mode (s : TMS9918A) : TMS9918A :=
  { s with
    mode_val := (s.m3_bit.toNat <<< 2) ||| (s.m2_bit.toNat <<< 1) ||| s.m1_bit.toNat }

/-- `TMS9918A::write_reg`. -/
def write_reg (reg data : Nat) (s : TMS9918A) : TMS9918A :=
  if reg ≥ 8 then
    s
  else
    match reg with
    | 0 => update_mode { s with m2_bit := testbit data 1 }
    | 1 =>
      let s1 := update_mode
        { s with
          is_vdp_enabled := testbit data 6
          is_irq := testbit data 5
          m1_bit := testbit data 4
          m3_bit := testbit data 3 }
      if s1.is_vblank && s1.is_irq then { s1 with is_irq_gen := true } else s1
    | 2 => { s with pattern_name := data &&& 0xF }
    | 3 => { s with color_table := data }
    | 4 => { s with pattern_gen := data &&& 0x7 }
    | 7 => { s with text_color := data >>> 4, backdrop_color := data &&& 0xF }
    | _ => s

/-- `TMS9918A::init`: VRAM is filled with `rand() & 0xFF` (the stream of
`rand()` values is the parameter `rnd`), both pixel buffers are cleared and
the vblank flag is set. -/
def init (rnd : Nat → Nat) (s : TMS9918A) : TMS9918A :=
  { s with
    vram := fun i => if i < 0x4000 then rnd i &&& 0xFF else s.vram i
    framebuffer := fun _ => ⟨0, 0, 0⟩
    linebuffer := fun _ => ⟨0, 0, 0⟩
    is_vblank := true }

/-! ## Port interface -/

/-- `TMS9918A::writeControl`. -/
def writeControl (data : Nat) (s : TMS9918A) : TMS9918A :=
  if s.is_second_control_write then
    let s1 := { s with command_word := ((s.command_word &&& 0xFF) ||| (data <<< 8)) % 65536 }
    let s2 := { s1 with addr_register := s1.command_word &&& 0x3FFF }
    let s3 := { s2 with code_register := s2.command_word >>> 14 }
    let s4 :=
      match s3.code_register with
      | 0 => increment_addr { s3 with read_buffer := s3.vram s3.addr_register }
      | 1 => s3
      | 2 => write_reg ((s3.command_word >>> 8) &&& 0x7) ((s3.command_word &&& 0xFF) % 256) s3
      | 3 => write_reg ((s3.command_word >>> 8) &&& 0x7) ((s3.command_word &&& 0xFF) % 256) s3
      | _ => s3
    { s4 with is_second_control_write := false }
  else
    let s1 := { s with command_word := ((s.command_word &&& 0xFF00) ||| data) % 65536 }
    { s1 with
      addr_register := s1.command_word &&& 0x3FFF
      is_second_control_write := true }

/-- `TMS9918A::writeData`. -/
def writeData (data : Nat) (s : TMS9918A) : TMS9918A :=
  let s1 := { s with vram := Function.update s.vram s.addr_register data }
  let s2 := { s1 with read_buffer := data }
  let s3 := increment_addr s2
  let s4 := { s3 with is_second_control_write := false }
  { s4 with read_buffer := data }

/-- `TMS9918A::isInterrupt`: the pending flag, which is cleared. -/
def isInterrupt (s : TMS9918A) : Bool × TMS9918A :=
  let irq_gen := s.is_irq_gen
  (irq_gen, { s with is_irq_gen := false })

/-- `TMS9918A::readStatus`: `is_vblank << 7` as a byte; vblank and the
control latch are cleared. -/
def readStatus (s : TMS9918A) : Nat × TMS9918A :=
  let status_byte := (s.is_vblank.toNat <<< 7) % 256
  (status_byte, { s with is_vblank := false, is_second_control_write := false })

/-- `TMS9918A::readData`: the old read buffer is returned, the buffer is
refilled from VRAM and the address register is incremented. -/
def readData (s : TMS9918A) : Nat × TMS9918A :=
  let s1 := { s with is_second_control_write := false }
  let result := s1.read_buffer
  let s2 := { s1 with read_buffer := s1.vram s1.addr_register }
  (result, increment_addr s2)

/-! ## Timing -/

/-- `TMS9918A::chipClock`; `none` when the scanline renderer ends the
process. -/
def chipClock (s : TMS9918A) : Option TMS9918A :=
  let s1 :=
    if s.vcounter = getHeight then
      let s0 := { s with is_vblank := true }
      if s0.is_irq then { s0 with is_irq_gen := true } else s0
    else s
  let r := if s1.vcounter < getHeight then render_scanline s1 else some s1
  r.map fun s2 =>
    let s3 := { s2 with vcounter := (s2.vcounter + 1) % 65536 }
    if s3.vcounter = numScanlines then { s3 with vcounter := 0 } else s3

/-! ## Drivers: repeated port accesses

The loops of the test harness (`reset_vdp`, `dump_vram`) and the iterated
operations the properties speak about. -/

/-- The device after `n` consecutive `readData()` calls. -/
def readSkip : Nat → TMS9918A → TMS9918A
  | 0, s => s
  | n + 1, s => readSkip n (readData s).2

/-- The loop of `dump_vram`: `n` consecutive `readData()` calls, with the
bytes they return in order, and the device afterwards. -/
def readDataList : Nat → TMS9918A → List Nat × TMS9918A
  | 0, s => ([], s)
  | n + 1, s =>
    let r := readData s
    let rest := readDataList n r.2
    (r.1 :: rest.1, rest.2)

/-- The loop of `reset_vdp`, for any bytes: `writeData(b)` for each `b` of
the list, in order. -/
def writeDataList (bs : List Nat) (s : TMS9918A) : TMS9918A :=
  bs.foldl (fun st b => writeData b st) s

/-- A device right after construction whose arrays happen to hold zeros. -/
def blank : TMS9918A :=
  fresh (fun _ => 0) (fun _ => ⟨0, 0, 0⟩) (fun _ => ⟨0, 0, 0⟩)

/-- The first block of `chipClock` on its own: at `vcounter == getHeight()`
the vblank flag is set and, with the frame interrupt enabled, the interrupt
is raised. -/
def vblankEdge (s : TMS9918A) : TMS9918A :=
  if s.vcounter = getHeight then
    let s0 := { s with is_vblank := true }
    if s0.is_irq then { s0 with is_irq_gen := true } else s0
  else s

/-- The last block of `chipClock` on its own: the scanline counter is
incremented and wraps to 0 at `numScanlines()`. -/
def advanceLine (s2 : TMS9918A) : TMS9918A :=
  let s3 := { s2 with vcounter := (s2.vcounter + 1) % 65536 }
  if s3.vcounter = numScanlines then { s3 with vcounter := 0 } else s3

/-! ## Views of the register file -/

/-- The fields that `write_reg` derives from the registers R0, R1, R2, R3,
R4 and R7. -/
structure RegFields where
  m2_bit : Bool
  m1_bit : Bool
  m3_bit : Bool
  mode_val : Nat
  is_vdp_enabled : Bool
  is_irq : Bool
  pattern_name : Nat
  color_table : Nat
  pattern_gen : Nat
  text_color : Nat
  backdrop_color : Nat
deriving DecidableEq, Repr

/-- The register-derived fields of a device. -/
def regFields (s : TMS9918A) : RegFields :=
  { m2_bit := s.m2_bit
    m1_bit := s.m1_bit
    m3_bit := s.m3_bit
    mode_val := s.mode_val
    is_vdp_enabled := s.is_vdp_enabled
    is_irq := s.is_irq
    pattern_name := s.pattern_name
    color_table := s.color_table
    pattern_gen := s.pattern_gen
    text_color := s.text_color
    backdrop_color := s.backdrop_color }

/-- The mode index that `update_mode` computes from the three mode bits:
`(m3_bit << 2) | (m2_bit << 1) | m1_bit`. -/
def modeOfBits (s : TMS9918A) : Nat :=
  (s.m3_bit.toNat <<< 2) ||| (s.m2_bit.toNat <<< 1) ||| s.m1_bit.toNat

/-- Base address of the pattern name table, the local `name_base` of the
renderers: `pattern_name << 10`. -/
def name_base (s : TMS9918A) : Nat := s.pattern_name <<< 10

/-- Base address of the colour table, the local `color_base` of
`render_graphics1`: `color_table << 6`. -/
def color_base (s : TMS9918A) : Nat := s.color_table <<< 6

/-- Base address of the pattern generator table, the local `pattern_base`
of the renderers: `pattern_gen << 11`. -/
def pattern_base (s : TMS9918A) : Nat := s.pattern_gen <<< 11

/-! ## Operations and reachable states -/

/-- The calls a host can make on the device.  Byte arguments have the type
of a `uint8_t`; `init` carries the values that `rand()` returns. -/
inductive Op where
  | init (rnd : Nat → Nat)
  | writeControl (data : Fin 256)
  | writeData (data : Fin 256)
  | readData
  | readStatus
  | isInterrupt
  | chipClock

/-- The port operations: every call but `init` and `chipClock`. -/
def Op.isPort : Op → Bool
  | .init _ => false
  | .chipClock => false
  | _ => true

/-- The state after one call, results dropped; `none` when the call ends
the process. -/
def step : Op → TMS9918A → Option TMS9918A
  | .init rnd, s => some (init rnd s)
  | .writeControl data, s => some (writeControl data.val s)
  | .writeData data, s => some (writeData data.val s)
  | .readData, s => some (readData s).2
  | .readStatus, s => some (readStatus s).2
  | .isInterrupt, s => some (isInterrupt s).2
  | .chipClock, s => chipClock s

/-- The states a device can be in: those of a freshly constructed device,
and those that a call leads to from such a state. -/
inductive Reachable : TMS9918A → Prop where
  | fresh (vram : Nat → Nat) (fb lb : Nat → BeeVDPRGB) : Reachable (fresh vram fb lb)
  | step (op : Op) (s t : TMS9918A) : Reachable s → step op s = some t → Reachable t

/-- The state without what the renderer writes: framebuffer, line buffer
and render line are replaced by fixed values. -/
def withoutPixels (s : TMS9918A) : TMS9918A :=
  { s with
    framebuffer := fun _ => ⟨0, 0, 0⟩
    render_line := 0
    linebuffer := fun _ => ⟨0, 0, 0⟩ }

/-- The state without what `set_pixel` writes: line buffer and render line
are replaced by fixed values. -/
def withoutLine (s : TMS9918A) : TMS9918A :=
  { s with
    render_line := 0
    linebuffer := fun _ => ⟨0, 0, 0⟩ }

/-- The device after `n` consecutive `chipClock()` calls; `none` as soon as
one of them ends the process. -/
def ticks : Nat → TMS9918A → Option TMS9918A
  | 0, s => some s
  | n + 1, s => (chipClock s).bind (ticks n)

/-- The device after a sequence of calls, in order; `none` as soon as one
of them ends the process. -/
def run : List Op → TMS9918A → Option TMS9918A
  | [], s => some s
  | op :: ops, s => (step op s).bind (run ops)

/-- The framebuffer pixel at column `x` of row `y`: the framebuffer is
row-major, `screen_pos = xpos + ypos * getWidth()`. -/
def pixel (s : TMS9918A) (x y : Nat) : BeeVDPRGB :=
  s.framebuffer (x + y * getWidth)

/-! ## Pixel colours -/

/-- The colour that the inner loop of `render_graphics1` passes to
`set_pixel` for pixel `pixel` of tile column `tile_col` on line `vcount`, as
a function of the values the loops read. -/
def graphics1_color (vram : Nat → Nat)
    (pattern_name color_table pattern_gen backdrop_color vcount tile_col pixel : Nat) :
    BeeVDPRGB :=
  let name_base := pattern_name <<< 10
  let color_base := color_table <<< 6
  let pattern_base := pattern_gen <<< 11
  let ypos := (vcount >>> 3) <<< 5
  let name_addr := name_base + ypos + tile_col
  let name_byte := vram name_addr
  let pattern_addr := pattern_base + (name_byte <<< 3) + (vcount &&& 0x7)
  let pattern_byte := vram pattern_addr
  let color_addr := color_base + (name_byte >>> 3)
  let color_byte := vram color_addr
  let colorline := 7 - pixel
  let pixel_color :=
    if testbit pattern_byte colorline then color_byte >>> 4 else color_byte &&& 0xF
  let pixel_color := if pixel_color = 0 then backdrop_color else pixel_color
  get_color pixel_color

/-- The colour that the inner loop of `render_text1` passes to `set_pixel`
for pixel `pixel` of tile column `tile_col` on line `vcount`, as a function
of the values the loops read. -/
def text1_color (vram : Nat → Nat)
    (pattern_name pattern_gen text_color backdrop_color vcount tile_col pixel : Nat) :
    BeeVDPRGB :=
  let name_base := pattern_name <<< 10
  let pattern_base := pattern_gen <<< 11
  let ypos := (vcount >>> 3) * 40
  let name_addr := name_base + ypos + tile_col
  let name_byte := vram name_addr
  let pattern_addr := pattern_base + (name_byte <<< 3) + (vcount &&& 0x7)
  let pattern_byte := vram pattern_addr
  let colorline := 7 - pixel
  let pixel_color := if testbit pattern_byte colorline then text_color else backdrop_color
  let pixel_color := if pixel_color = 0 then backdrop_color else pixel_color
  get_color pixel_color

/-- The Graphics I colour index of pixel `p` of column `c` on line `v` in
the words of the specification: name byte, pattern byte and colour byte are
looked up in VRAM, bit `7 - p` of the pattern byte selects the high or the
low nibble of the colour byte, and index 0 is replaced by the backdrop. -/
def graphics1_index (s : TMS9918A) (v c p : Nat) : Nat :=
  let name := s.vram (name_base s + (v >>> 3) * 32 + c)
  let pat := s.vram (pattern_base s + name * 8 + (v &&& 7))
  let col := s.vram (color_base s + (name >>> 3))
  let i0 := if testbit pat (7 - p) then col >>> 4 else col &&& 0x0F
  if i0 = 0 then s.backdrop_color else i0

/-- The text-mode colour index of pixel `p` of column `c` on line `v` in
the words of the specification: the text colour if bit `7 - p` of the
pattern byte is set and the text colour is not 0, the backdrop otherwise. -/
def text1_index (s : TMS9918A) (v c p : Nat) : Nat :=
  let name := s.vram (name_base s + (v >>> 3) * 40 + c)
  let pat := s.vram (pattern_base s + name * 8 + (v &&& 7))
  if testbit pat (7 - p) = true ∧ s.text_color ≠ 0 then s.text_color else s.backdrop_color

/-! ## Array accesses of the renderer -/

/-- The VRAM indices that `render_graphics1` reads on the current line, in
the order of the loop: name, pattern and colour address of each tile. -/
def graphics1_reads (s : TMS9918A) : List Nat :=
  let vcount := s.vcounter
  let name_base := s.pattern_name <<< 10
  let color_base := s.color_table <<< 6
  let pattern_base := s.pattern_gen <<< 11
  let ypos := (vcount >>> 3) <<< 5
  (List.range 32).foldl
    (fun reads tile_col =>
      let name_addr := name_base + ypos + tile_col
      let name_byte := s.vram name_addr
      let pattern_addr := pattern_base + (name_byte <<< 3) + (vcount &&& 0x7)
      let color_addr := color_base + (name_byte >>> 3)
      reads ++ [name_addr, pattern_addr, color_addr])
    []

/-- The VRAM indices that `render_text1` reads on the current line, in the
order of the loop: name and pattern address of each tile. -/
def text1_reads (s : TMS9918A) : List Nat :=
  let vcount := s.vcounter
  let name_base := s.pattern_name <<< 10
  let pattern_base := s.pattern_gen <<< 11
  let ypos := (vcount >>> 3) * 40
  (List.range 40).foldl
    (fun reads tile_col =>
      let name_addr := name_base + ypos + tile_col
      let name_byte := s.vram name_addr
      let pattern_addr := pattern_base + (name_byte <<< 3) + (vcount &&& 0x7)
      reads ++ [name_addr, pattern_addr])
    []

/-- The `xpos` arguments of the `set_pixel` calls of `render_backdrop`. -/
def backdrop_xpos : List Nat :=
  (List.range 256).foldl (fun xs xpos => xs ++ [xpos]) []

/-- The `xpos` arguments of the `set_pixel` calls of `render_graphics1`
(the calls are under `if (xpos < getWidth())`). -/
def graphics1_xpos : List Nat :=
  (List.range 32).foldl
    (fun xs tile_col =>
      (List.range 8).foldl
        (fun xs2 pixel =>
          let xpos := (tile_col <<< 3) + pixel
          if xpos < getWidth then xs2 ++ [xpos] else xs2)
        xs)
    []

/-- The `xpos` arguments of the `set_pixel` calls of `render_text1` (the
calls are under `if (xpos < getWidth())`). -/
def text1_xpos : List Nat :=
  (List.range 40).foldl
    (fun xs tile_col =>
      (List.range 6).foldl
        (fun xs2 pixel =>
          let xpos := (tile_col * 6) + (8 + pixel)
          if xpos < getWidth then xs2 ++ [xpos] else xs2)
        xs)
    []

/-- The framebuffer indices that `update_framebuffer` writes: none when the
render line is out of range, `xpos + ypos * getWidth()` for each `xpos`
otherwise. -/
def framebuffer_writes (s : TMS9918A) : List Nat :=
  if !inRange s.render_line 0 getHeight then
    []
  else
    let ypos := s.render_line
    (List.range getWidth).foldl (fun ws xpos => ws ++ [xpos + ypos * getWidth]) []

/-! ## Bit arithmetic

The masks and shifts of the port protocol, rewritten as `%`, `/` and `*`, so
that linear arithmetic can finish the computations. -/

theorem and_FF (x : Nat) : x &&& 0xFF = x % 256 :=
  Nat.and_pow_two_sub_one_eq_mod x 8

theorem and_3FFF (x : Nat) : x &&& 0x3FFF = x % 16384 :=
  Nat.and_pow_two_sub_one_eq_mod x 14

theorem and_F (x : Nat) : x &&& 0xF = x % 16 :=
  Nat.and_pow_two_sub_one_eq_mod x 4

theorem and_7 (x : Nat) : x &&& 0x7 = x % 8 :=
  Nat.and_pow_two_sub_one_eq_mod x 3

theorem and_1 (x : Nat) : x &&& 1 = x % 2 :=
  Nat.and_pow_two_sub_one_eq_mod x 1

theorem shl_8 (x : Nat) : x <<< 8 = 256 * x := by
  rw [Nat.shiftLeft_eq]; omega

theorem shr_8 (x : Nat) : x >>> 8 = x / 256 := by
  rw [Nat.shiftRight_eq_div_pow]

theorem shr_14 (x : Nat) : x >>> 14 = x / 16384 := by
  rw [Nat.shiftRight_eq_div_pow]

theorem or_lo (a b : Nat) (hb : b < 256) : (256 * a) ||| b = 256 * a + b :=
  (Nat.mul_add_lt_is_or (i := 8) hb a).symm

theorem and_FF00 (x : Nat) : x &&& 0xFF00 = 256 * (x / 256 % 256) := by
  apply Nat.eq_of_testBit_eq
  intro i
  have h1 : (0xFF00 : Nat) = (2 ^ 8 - 1) <<< 8 := by decide
  have h2 : 256 * (x / 256 % 256) = ((x >>> 8) % 2 ^ 8) <<< 8 := by
    rw [Nat.shiftLeft_eq, Nat.shiftRight_eq_div_pow]; omega
  rw [h2, Nat.testBit_and, h1]
  simp only [Nat.testBit_shiftLeft, Nat.testBit_two_pow_sub_one, Nat.testBit_mod_two_pow,
    Nat.testBit_shiftRight]
  by_cases h : 8 ≤ i
  · have e : 8 + (i - 8) = i := by omega
    simp [h, e]
    by_cases h3 : i < 16
    · have : i - 8 < 8 := by omega
      simp [this]
    · have : ¬ (i - 8 < 8) := by omega
      simp [this]
  · simp [h]

theorem or_40 (h : Nat) (hh : h < 64) : 0x40 ||| h = 64 + h := by
  have := Nat.mul_add_lt_is_or (i := 6) hh 1
  simpa using this.symm

theorem or_80 (h : Nat) (hh : h < 128) : 0x80 ||| h = 128 + h := by
  have := Nat.mul_add_lt_is_or (i := 7) hh 1
  simpa using this.symm

/-- The command word after a first control write of the byte `d`. -/
theorem cw_first (cw d : Nat) (hd : d < 256) :
    ((cw &&& 0xFF00) ||| d) % 65536 = 256 * (cw / 256 % 256) + d := by
  rw [and_FF00, or_lo _ _ hd]; omega

/-- The command word after a second control write of the byte `e`, when the
low byte of the word is `d`. -/
theorem cw_second (cw e : Nat) (he : e < 256) :
    ((cw &&& 0xFF) ||| (e <<< 8)) % 65536 = 256 * e + cw % 256 := by
  rw [and_FF, shl_8, Nat.or_comm, or_lo _ _ (Nat.mod_lt _ (by decide))]; omega

/-! ## The two phases of a control write -/

theorem writeControl_first (d : Nat) (s : TMS9918A) (h : s.is_second_control_write = false) :
    writeControl d s =
      { s with
        command_word := ((s.command_word &&& 0xFF00) ||| d) % 65536
        addr_register := (((s.command_word &&& 0xFF00) ||| d) % 65536) &&& 0x3FFF
        is_second_control_write := true } := by
  simp [writeControl, h]

/-- Two control writes in a row, starting with the latch clear: the command
word is `256 * e + d` and the code `e / 64` selects what happens. -/
theorem writeControl_pair (d e : Nat) (s : TMS9918A) (h : s.is_second_control_write = false)
    (hd : d < 256) (he : e < 256) :
    writeControl e (writeControl d s) =
      let s3 : TMS9918A :=
        { s with
          command_word := 256 * e + d
          addr_register := (256 * e + d) % 16384
          code_register := e / 64
          is_second_control_write := true }
      let s4 :=
        match e / 64 with
        | 0 => increment_addr { s3 with read_buffer := s.vram ((256 * e + d) % 16384) }
        | 1 => s3
        | 2 => write_reg (e % 8) d s3
        | 3 => write_reg (e % 8) d s3
        | _ => s3
      { s4 with is_second_control_write := false } := by
  have hcw : ((((s.command_word &&& 0xFF00) ||| d) % 65536 &&& 0xFF) ||| (e <<< 8)) % 65536
      = 256 * e + d := by
    rw [cw_second _ _ he, cw_first _ _ hd]; omega
  have h14 : (256 * e + d) >>> 14 = e / 64 := by rw [shr_14]; omega
  have h8 : ((256 * e + d) >>> 8) &&& 0x7 = e % 8 := by rw [shr_8, and_7]; omega
  have hlo : ((256 * e + d) &&& 0xFF) % 256 = d := by rw [and_FF]; omega
  rw [writeControl_first _ _ h]
  simp only [writeControl, if_true, hcw, h14, h8, hlo, and_3FFF]

/-- VRAM write setup to address `A` (code 1). -/
theorem write_setup (A : Nat) (s : TMS9918A) (h : s.is_second_control_write = false)
    (hA : A ≤ 0x3FFF) :
    writeControl (0x40 ||| (A >>> 8)) (writeControl (A &&& 0xFF) s) =
      { s with
        command_word := 0x4000 + A
        addr_register := A
        code_register := 1
        is_second_control_write := false } := by
  have hd : A &&& 0xFF < 256 := by rw [and_FF]; omega
  have hhi : A >>> 8 < 64 := by rw [shr_8]; omega
  have he : 0x40 ||| (A >>> 8) < 256 := by rw [or_40 _ hhi]; omega
  have hcw : 256 * (0x40 ||| (A >>> 8)) + (A &&& 0xFF) = 0x4000 + A := by
    rw [or_40 _ hhi, and_FF, shr_8]; omega
  have hcode : (0x40 ||| (A >>> 8)) / 64 = 1 := by rw [or_40 _ hhi]; omega
  have haddr : (0x4000 + A) % 16384 = A := by omega
  rw [writeControl_pair _ _ s h hd he]
  simp only [hcw, hcode, haddr]

/-- VRAM read setup to address `A` (code 0): the byte at `A` is fetched into
the read buffer and the address register moves on. -/
theorem read_setup (A : Nat) (s : TMS9918A) (h : s.is_second_control_write = false)
    (hA : A ≤ 0x3FFF) :
    writeControl (A >>> 8) (writeControl (A &&& 0xFF) s) =
      { s with
        command_word := A
        addr_register := (A + 1) % 0x4000
        code_register := 0
        read_buffer := s.vram A
        is_second_control_write := false } := by
  have hd : A &&& 0xFF < 256 := by rw [and_FF]; omega
  have he : A >>> 8 < 256 := by rw [shr_8]; omega
  have hcw : 256 * (A >>> 8) + (A &&& 0xFF) = A := by
    rw [and_FF, shr_8]; omega
  have hcode : (A >>> 8) / 64 = 0 := by rw [shr_8]; omega
  have haddr : A % 16384 = A := by omega
  rw [writeControl_pair _ _ s h hd he]
  simp only [hcw, hcode, haddr, increment_addr]
  by_cases hw : A = 0x3FFF
  · subst hw; simp
  · have : (A + 1) % 65536 = (A + 1) % 0x4000 := by omega
    simp [hw, this]

/-- The register file does not look at the control latch: `write_reg`
commutes with setting it. -/
theorem write_reg_latch (n d : Nat) (t : TMS9918A) (b : Bool) :
    write_reg n d { t with is_second_control_write := b } =
      { write_reg n d t with is_second_control_write := b } := by
  unfold write_reg update_mode
  split
  · rfl
  · split <;> first | rfl | (dsimp only; split_ifs <;> rfl)

/-- Register write `R[n] := d` (code 2). -/
theorem reg_write (n d : Nat) (s : TMS9918A) (h : s.is_second_control_write = false)
    (hn : n < 8) (hd : d < 256) :
    writeControl (0x80 ||| n) (writeControl d s) =
      write_reg n d
        { s with
          command_word := 256 * (128 + n) + d
          addr_register := 256 * n + d
          code_register := 2 } := by
  have hn7 : n < 128 := by omega
  rw [or_80 _ hn7]
  have he : 128 + n < 256 := by omega
  have hcode : (128 + n) / 64 = 2 := by omega
  have hreg : (128 + n) % 8 = n := by omega
  have haddr : (256 * (128 + n) + d) % 16384 = 256 * n + d := by omega
  rw [writeControl_pair _ _ s h hd he]
  simp only [hcode, hreg, haddr]
  rw [← write_reg_latch]
  simp only [h]

/-! ## Data port -/

theorem writeData_eq (b : Nat) (s : TMS9918A) (hL : s.addr_register ≤ 0x3FFF) :
    writeData b s =
      { s with
        vram := Function.update s.vram s.addr_register b
        read_buffer := b
        addr_register := (s.addr_register + 1) % 0x4000
        is_second_control_write := false } := by
  unfold writeData increment_addr
  by_cases hw : s.addr_register = 0x3FFF
  · simp [hw]
  · have e : (s.addr_register + 1) % 65536 = (s.addr_register + 1) % 0x4000 := by omega
    simp [hw, e]

theorem readData_eq (s : TMS9918A) (hL : s.addr_register ≤ 0x3FFF) :
    readData s =
      (s.read_buffer,
        { s with
          read_buffer := s.vram s.addr_register
          addr_register := (s.addr_register + 1) % 0x4000
          is_second_control_write := false }) := by
  unfold readData increment_addr
  by_cases hw : s.addr_register = 0x3FFF
  · simp [hw]
  · have e : (s.addr_register + 1) % 65536 = (s.addr_register + 1) % 0x4000 := by omega
    simp [hw, e]

/-- C1. Write/read round trip through the ports: from any state with the
control latch clear, for every address `A` in `0..0x3FFF` and every byte `b`,
a write setup to `A`, `writeData(b)`, a read setup to `A` and `readData()`
returns `b`. -/
theorem write_read_roundtrip (s : TMS9918A) (A b : Nat)
    (hlatch : s.is_second_control_write = false) (hA : A ≤ 0x3FFF) (_hb : b < 256) :
    (readData
      (writeControl (A >>> 8) (writeControl (A &&& 0xFF)
        (writeData b
          (writeControl (0x40 ||| (A >>> 8)) (writeControl (A &&& 0xFF) s)))))).1 = b := by
  rw [write_setup A s hlatch hA, writeData_eq b _ hA, read_setup A _ rfl hA,
    readData_eq _ (Nat.le_of_lt_succ (Nat.mod_lt _ (by decide)))]
  simp

/-- C1 at the scenario of the specification: `A = 0x0100`, `b = 0xAA`. -/
theorem write_read_roundtrip_witness :
    (readData
      (writeControl (0x0100 >>> 8) (writeControl (0x0100 &&& 0xFF)
        (writeData 0xAA
          (writeControl (0x40 ||| (0x0100 >>> 8)) (writeControl (0x0100 &&& 0xFF) blank)))))).1
      = 0xAA :=
  write_read_roundtrip blank 0x0100 0xAA rfl (by decide) (by decide)

/-! ## Sequential reads -/

/-- The state after `n` reads: VRAM is untouched, the address register has
advanced by `n` and the read buffer holds the byte just before it. -/
theorem readSkip_spec (n : Nat) (s : TMS9918A) (hL : s.addr_register ≤ 0x3FFF) :
    (readSkip n s).vram = s.vram ∧
    (readSkip n s).addr_register = (s.addr_register + n) % 0x4000 ∧
    (readSkip (n + 1) s).read_buffer = s.vram ((s.addr_register + n) % 0x4000) := by
  induction n generalizing s with
  | zero =>
    refine ⟨rfl, ?_, ?_⟩
    · show s.addr_register = _
      omega
    · show (readData s).2.read_buffer = _
      rw [readData_eq s hL]
      have e : (s.addr_register + 0) % 0x4000 = s.addr_register := by omega
      rw [e]
  | succ n ih =>
    have hL2 : (readData s).2.addr_register ≤ 0x3FFF := by
      rw [readData_eq s hL]
      exact Nat.le_of_lt_succ (Nat.mod_lt _ (by decide))
    obtain ⟨h1, h2, h3⟩ := ih (readData s).2 hL2
    have ha : (readData s).2.addr_register = (s.addr_register + 1) % 0x4000 := by
      rw [readData_eq s hL]
    have hv : (readData s).2.vram = s.vram := by
      rw [readData_eq s hL]
    refine ⟨?_, ?_, ?_⟩
    · show (readSkip n (readData s).2).vram = _
      rw [h1, hv]
    · show (readSkip n (readData s).2).addr_register = _
      rw [h2, ha]
      omega
    · show (readSkip (n + 1) (readData s).2).read_buffer = _
      rw [h3, hv, ha]
      congr 1
      omega

/-- C2. One-byte-behind sequential read: after a read setup to `A` from a
state with the control latch clear, the `k`-th consecutive `readData()`
(`k ≥ 1`) returns `vram[(A + k - 1) mod 0x4000]`, also across the wrap from
`0x3FFF` to `0`, and leaves the address register at `(A + k + 1) mod 0x4000`. -/
theorem sequential_read (s : TMS9918A) (A k : Nat)
    (hlatch : s.is_second_control_write = false) (hA : A ≤ 0x3FFF) (hk : 1 ≤ k) :
    (readData (readSkip (k - 1)
        (writeControl (A >>> 8) (writeControl (A &&& 0xFF) s)))).1
      = s.vram ((A + k - 1) % 0x4000) ∧
    (readData (readSkip (k - 1)
        (writeControl (A >>> 8) (writeControl (A &&& 0xFF) s)))).2.addr_register
      = (A + k + 1) % 0x4000 := by
  rw [read_setup A s hlatch hA]
  obtain ⟨j, rfl⟩ : ∃ j, k = j + 1 := ⟨k - 1, by omega⟩
  simp only [Nat.add_sub_cancel]
  generalize hs0 : ({ s with
        command_word := A
        addr_register := (A + 1) % 0x4000
        code_register := 0
        read_buffer := s.vram A
        is_second_control_write := false } : TMS9918A) = s0
  have ha0 : s0.addr_register = (A + 1) % 0x4000 := by rw [← hs0]
  have hv0 : s0.vram = s.vram := by rw [← hs0]
  have hr0 : s0.read_buffer = s.vram A := by rw [← hs0]
  have hL0 : s0.addr_register ≤ 0x3FFF := by rw [ha0]; omega
  have hLj : (readSkip j s0).addr_register ≤ 0x3FFF := by
    rw [(readSkip_spec j s0 hL0).2.1]; omega
  rw [readData_eq _ hLj]
  refine ⟨?_, ?_⟩
  · show (readSkip j s0).read_buffer = _
    cases j with
    | zero =>
      show s0.read_buffer = _
      rw [hr0]
      congr 1
      omega
    | succ i =>
      rw [(readSkip_spec i s0 hL0).2.2, hv0, ha0]
      congr 1
      omega
  · show ((readSkip j s0).addr_register + 1) % 0x4000 = _
    rw [(readSkip_spec j s0 hL0).2.1, ha0]
    omega

/-- C2 at the last address: the second read after a setup to `0x3FFF`
returns `vram[0]`, and the address register is then `1`. -/
theorem sequential_read_witness :
    (readData (readSkip (2 - 1)
        (writeControl (0x3FFF >>> 8) (writeControl (0x3FFF &&& 0xFF) blank)))).1
      = blank.vram ((0x3FFF + 2 - 1) % 0x4000) ∧
    (readData (readSkip (2 - 1)
        (writeControl (0x3FFF >>> 8) (writeControl (0x3FFF &&& 0xFF) blank)))).2.addr_register
      = (0x3FFF + 2 + 1) % 0x4000 :=
  sequential_read blank 0x3FFF 2 rfl (by decide) (by decide)

/-! ## Block transfers -/

/-- Two lists of the same length that agree at every position are equal. -/
theorem list_eq_of_getD (l1 l2 : List Nat) (hl : l1.length = l2.length)
    (h : ∀ i, i < l1.length → l1.getD i 0 = l2.getD i 0) : l1 = l2 := by
  induction l1 generalizing l2 with
  | nil =>
    cases l2 with
    | nil => rfl
    | cons b l2 => simp at hl
  | cons a l1 ih =>
    cases l2 with
    | nil => simp at hl
    | cons b l2 =>
      have h0 := h 0 (by simp)
      rw [List.getD_cons_zero, List.getD_cons_zero] at h0
      have ht : l1 = l2 := by
        apply ih
        · simpa using hl
        · intro i hi
          have := h (i + 1) (by simpa using hi)
          rwa [List.getD_cons_succ, List.getD_cons_succ] at this
      rw [h0, ht]

/-- A run of data writes that stays below the end of VRAM: the cells below
the start are untouched, the cells from the start on hold the bytes in
order, the address register has advanced (wrapping at the end of VRAM) and
the control latch stays clear. -/
theorem writeDataList_spec (bs : List Nat) (s : TMS9918A)
    (hL : s.addr_register ≤ 0x3FFF)
    (h : s.addr_register + bs.length ≤ 0x4000)
    (hlatch : s.is_second_control_write = false) :
    (∀ i, i < s.addr_register → (writeDataList bs s).vram i = s.vram i) ∧
    (∀ j, j < bs.length → (writeDataList bs s).vram (s.addr_register + j) = bs.getD j 0) ∧
    (writeDataList bs s).addr_register = (s.addr_register + bs.length) % 0x4000 ∧
    (writeDataList bs s).is_second_control_write = false := by
  induction bs generalizing s with
  | nil =>
    refine ⟨fun _ _ => rfl, fun j hj => absurd hj (by simp), ?_, hlatch⟩
    show s.addr_register = (s.addr_register + 0) % 0x4000
    omega
  | cons b bs ih =>
    have hstep : writeDataList (b :: bs) s = writeDataList bs (writeData b s) := rfl
    have hlen : (b :: bs).length = bs.length + 1 := rfl
    rw [hstep, hlen]
    rw [hlen] at h
    have ha1 : (writeData b s).addr_register = (s.addr_register + 1) % 0x4000 := by
      rw [writeData_eq b s hL]
    have hv1 : (writeData b s).vram = Function.update s.vram s.addr_register b := by
      rw [writeData_eq b s hL]
    have hf1 : (writeData b s).is_second_control_write = false := by
      rw [writeData_eq b s hL]
    have hL1 : (writeData b s).addr_register ≤ 0x3FFF := by rw [ha1]; omega
    have hb1 : (writeData b s).addr_register + bs.length ≤ 0x4000 := by rw [ha1]; omega
    obtain ⟨i1, i2, i3, i4⟩ := ih (writeData b s) hL1 hb1 hf1
    by_cases hw : s.addr_register + 1 = 0x4000
    · have hnil : bs = [] := List.length_eq_zero.mp (by omega)
      subst hnil
      refine ⟨?_, ?_, ?_, i4⟩
      · intro i hi
        show (writeData b s).vram i = _
        rw [hv1, Function.update_noteq (by omega)]
      · intro j hj
        have hj0 : j = 0 := by simpa using hj
        subst hj0
        show (writeData b s).vram (s.addr_register + 0) = b
        rw [hv1, Nat.add_zero, Function.update_same]
      · rw [i3, ha1]
        show ((s.addr_register + 1) % 0x4000 + 0) % 0x4000 = (s.addr_register + (0 + 1)) % 0x4000
        omega
    · have ha2 : (writeData b s).addr_register = s.addr_register + 1 := by rw [ha1]; omega
      refine ⟨?_, ?_, ?_, i4⟩
      · intro i hi
        rw [i1 i (by omega), hv1, Function.update_noteq (by omega)]
      · intro j hj
        cases j with
        | zero =>
          rw [Nat.add_zero, i1 _ (by omega), hv1, Function.update_same]
          rfl
        | succ j =>
          have := i2 j (by omega)
          rw [ha2] at this
          rw [List.getD_cons_succ, ← this]
          congr 1
          omega
      · rw [i3, ha2]
        omega

/-- A run of `n` data reads returns the read buffer first and then the VRAM
bytes from the address register on, one byte behind. -/
theorem readDataList_spec (n : Nat) (s : TMS9918A) (hL : s.addr_register ≤ 0x3FFF) :
    (readDataList n s).1.length = n ∧
    ∀ i, i < n → (readDataList n s).1.getD i 0 =
      if i = 0 then s.read_buffer else s.vram ((s.addr_register + i - 1) % 0x4000) := by
  induction n generalizing s with
  | zero => exact ⟨rfl, fun i hi => absurd hi (by omega)⟩
  | succ n ih =>
    have hstep : (readDataList (n + 1) s).1
        = (readData s).1 :: (readDataList n (readData s).2).1 := rfl
    have hr : (readData s).1 = s.read_buffer := by rw [readData_eq s hL]
    have ha1 : (readData s).2.addr_register = (s.addr_register + 1) % 0x4000 := by
      rw [readData_eq s hL]
    have hv1 : (readData s).2.vram = s.vram := by rw [readData_eq s hL]
    have hb1 : (readData s).2.read_buffer = s.vram s.addr_register := by
      rw [readData_eq s hL]
    have hL1 : (readData s).2.addr_register ≤ 0x3FFF := by rw [ha1]; omega
    obtain ⟨i1, i2⟩ := ih (readData s).2 hL1
    rw [hstep]
    refine ⟨by rw [List.length_cons, i1], ?_⟩
    intro i hi
    cases i with
    | zero => rw [List.getD_cons_zero, hr]; rfl
    | succ j =>
      rw [List.getD_cons_succ, i2 j (by omega), if_neg (Nat.succ_ne_zero j), hb1, hv1, ha1]
      by_cases hj : j = 0
      · subst hj
        rw [if_pos rfl]
        congr 1
        omega
      · rw [if_neg hj]
        congr 1
        omega

/-- C3. Whole-VRAM fill and dump: from a state with the control latch clear,
a write setup to address 0 followed by `writeData(b_i)` for 16384 bytes
`b_0 .. b_16383` leaves `b_i` in every VRAM cell `i` and the address register
back at 0; a following read setup to address 0 with 16384 `readData()` calls
returns `b_0 .. b_16383` in order. -/
theorem vram_fill_and_dump (s : TMS9918A) (bs : List Nat)
    (hlatch : s.is_second_control_write = false) (hlen : bs.length = 0x4000)
    (_hbytes : ∀ b, b ∈ bs → b < 256) :
    (∀ i, i < 0x4000 →
      (writeDataList bs (writeControl 0x40 (writeControl 0x00 s))).vram i = bs.getD i 0) ∧
    (writeDataList bs (writeControl 0x40 (writeControl 0x00 s))).addr_register = 0 ∧
    (readDataList 0x4000
      (writeControl 0x00 (writeControl 0x00
        (writeDataList bs (writeControl 0x40 (writeControl 0x00 s)))))).1 = bs := by
  have hws := write_setup 0 s hlatch (by decide)
  have hws2 : writeControl 0x40 (writeControl 0x00 s) =
      { s with
        command_word := 0x4000 + 0
        addr_register := 0
        code_register := 1
        is_second_control_write := false } := hws
  generalize hs1 : writeControl 0x40 (writeControl 0x00 s) = s1 at *
  have ha1 : s1.addr_register = 0 := by rw [hws2]
  have hf1 : s1.is_second_control_write = false := by rw [hws2]
  obtain ⟨-, w2, w3, w4⟩ := writeDataList_spec bs s1 (by omega) (by omega) hf1
  rw [ha1] at w2 w3
  have hvram : ∀ i, i < 0x4000 → (writeDataList bs s1).vram i = bs.getD i 0 := by
    intro i hi
    have := w2 i (by rw [hlen]; exact hi)
    rwa [Nat.zero_add] at this
  have haddr : (writeDataList bs s1).addr_register = 0 := by
    rw [w3, hlen]
  refine ⟨hvram, haddr, ?_⟩
  have hrs := read_setup 0 (writeDataList bs s1) w4 (by decide)
  have hrs2 : writeControl 0x00 (writeControl 0x00 (writeDataList bs s1)) =
      { writeDataList bs s1 with
        command_word := 0
        addr_register := (0 + 1) % 0x4000
        code_register := 0
        read_buffer := (writeDataList bs s1).vram 0
        is_second_control_write := false } := hrs
  generalize hs2 : writeControl 0x00 (writeControl 0x00 (writeDataList bs s1)) = s2 at *
  have ha2 : s2.addr_register = 1 := by rw [hrs2]
  have hv2 : s2.vram = (writeDataList bs s1).vram := by rw [hrs2]
  have hb2 : s2.read_buffer = (writeDataList bs s1).vram 0 := by rw [hrs2]
  obtain ⟨r1, r2⟩ := readDataList_spec 0x4000 s2 (by omega)
  apply list_eq_of_getD _ _ (by rw [r1, hlen])
  intro i hi
  rw [r1] at hi
  rw [r2 i hi, ha2, hv2, hb2]
  by_cases h0 : i = 0
  · subst h0
    rw [if_pos rfl, hvram 0 (by decide)]
  · rw [if_neg h0, hvram _ (Nat.mod_lt _ (by decide))]
    congr 1
    omega

/-- C3 at the fill of `reset_vdp`: 16384 zero bytes, read back by the loop
of `dump_vram`. -/
theorem vram_fill_and_dump_witness :
    (∀ i, i < 0x4000 →
      (writeDataList (List.replicate 0x4000 0)
        (writeControl 0x40 (writeControl 0x00 blank))).vram i
        = (List.replicate 0x4000 0).getD i 0) ∧
    (writeDataList (List.replicate 0x4000 0)
      (writeControl 0x40 (writeControl 0x00 blank))).addr_register = 0 ∧
    (readDataList 0x4000
      (writeControl 0x00 (writeControl 0x00
        (writeDataList (List.replicate 0x4000 0)
          (writeControl 0x40 (writeControl 0x00 blank)))))).1 = List.replicate 0x4000 0 :=
  vram_fill_and_dump blank (List.replicate 0x4000 0) rfl (List.length_replicate _ _)
    (fun _ hb => by rw [List.eq_of_mem_replicate hb]; decide)

/-- C4. Postcondition of `writeData`: with the address register `L ≤ 0x3FFF`
and a byte `b`, afterwards VRAM cell `L` holds `b`, every other cell is
unchanged, the read buffer is `b`, the control latch is clear and the
address register is `(L + 1) mod 0x4000`. -/
theorem writeData_post (s : TMS9918A) (b : Nat)
    (hL : s.addr_register ≤ 0x3FFF) (_hb : b < 256) :
    (writeData b s).vram s.addr_register = b ∧
    (∀ a, a ≠ s.addr_register → (writeData b s).vram a = s.vram a) ∧
    (writeData b s).read_buffer = b ∧
    (writeData b s).is_second_control_write = false ∧
    (writeData b s).addr_register = (s.addr_register + 1) % 0x4000 := by
  rw [writeData_eq b s hL]
  refine ⟨by simp, fun a ha => ?_, rfl, rfl, rfl⟩
  show Function.update s.vram s.addr_register b a = s.vram a
  rw [Function.update_noteq ha]

/-- C4 at the last address: a write at `0x3FFF` leaves the address register
at `0x0000`. -/
theorem writeData_post_witness :
    (writeData 0xAA { blank with addr_register := 0x3FFF }).vram 0x3FFF = 0xAA ∧
    (∀ a, a ≠ 0x3FFF →
      (writeData 0xAA { blank with addr_register := 0x3FFF }).vram a = blank.vram a) ∧
    (writeData 0xAA { blank with addr_register := 0x3FFF }).read_buffer = 0xAA ∧
    (writeData 0xAA { blank with addr_register := 0x3FFF }).is_second_control_write = false ∧
    (writeData 0xAA { blank with addr_register := 0x3FFF }).addr_register = 0 :=
  writeData_post { blank with addr_register := 0x3FFF } 0xAA (by decide) (by decide)

/-! ## What the renderer leaves alone -/

theorem set_pixel_core (x y : Nat) (c : BeeVDPRGB) (s : TMS9918A) :
    withoutPixels (set_pixel x y c s) = withoutPixels s := by
  unfold set_pixel
  split <;> rfl

theorem foldl_core {α : Type} (f : TMS9918A → α → TMS9918A)
    (hf : ∀ st a, withoutPixels (f st a) = withoutPixels st) (l : List α) (s : TMS9918A) :
    withoutPixels (l.foldl f s) = withoutPixels s := by
  induction l generalizing s with
  | nil => rfl
  | cons a l ih => rw [List.foldl_cons, ih, hf]

theorem render_backdrop_core (s : TMS9918A) :
    withoutPixels (render_backdrop s) = withoutPixels s :=
  foldl_core _ (fun _ _ => set_pixel_core _ _ _ _) _ _

theorem update_framebuffer_core (s : TMS9918A) :
    withoutPixels (update_framebuffer s) = withoutPixels s := by
  have e : ∀ (st : TMS9918A) (lb : Nat → BeeVDPRGB),
      withoutPixels { st with linebuffer := lb } = withoutPixels st := fun _ _ => rfl
  unfold update_framebuffer
  split
  · rfl
  · dsimp only
    rw [e]
    apply foldl_core
    intro st a
    rfl

theorem render_graphics1_core (s : TMS9918A) :
    withoutPixels (render_graphics1 s) = withoutPixels s := by
  refine foldl_core _ (fun st a => ?_) _ _
  refine foldl_core _ (fun st2 p => ?_) _ _
  dsimp only
  split
  · exact set_pixel_core _ _ _ _
  · rfl

theorem render_text1_core (s : TMS9918A) :
    withoutPixels (render_text1 s) = withoutPixels s := by
  refine foldl_core _ (fun st a => ?_) _ _
  refine foldl_core _ (fun st2 p => ?_) _ _
  dsimp only
  split
  · exact set_pixel_core _ _ _ _
  · rfl

/-- A rendered scanline differs from the state before it in the
framebuffer, the line buffer and the render line only. -/
theorem render_scanline_core (s t : TMS9918A) (h : render_scanline s = some t) :
    withoutPixels t = withoutPixels s := by
  unfold render_scanline at h
  split at h
  · cases h
    exact (update_framebuffer_core _).trans (render_backdrop_core s)
  · dsimp only at h
    split at h
    · cases h
      exact (update_framebuffer_core _).trans
        ((render_graphics1_core _).trans (render_backdrop_core s))
    · cases h
      exact (update_framebuffer_core _).trans
        ((render_text1_core _).trans (render_backdrop_core s))
    · cases h
      exact (update_framebuffer_core _).trans (render_backdrop_core s)
    · cases h

/-- `chipClock` in terms of its blocks. -/
theorem chipClock_eq (s : TMS9918A) :
    chipClock s =
      (if (vblankEdge s).vcounter < getHeight then render_scanline (vblankEdge s)
        else some (vblankEdge s)).map advanceLine :=
  rfl

/-- A tick differs from the state before it in the pixel buffers, the
vblank and interrupt flags and the scanline counter only. -/
theorem chipClock_core (s t : TMS9918A) (h : chipClock s = some t) :
    withoutPixels t =
      withoutPixels
        { s with
          is_vblank := t.is_vblank
          is_irq_gen := t.is_irq_gen
          vcounter := t.vcounter } := by
  rw [chipClock_eq] at h
  obtain ⟨s2, hr, rfl⟩ := Option.map_eq_some'.mp h
  have hc2 : withoutPixels s2 = withoutPixels (vblankEdge s) := by
    split at hr
    · exact render_scanline_core _ _ hr
    · cases hr
      rfl
  have h1 : ∀ u : TMS9918A,
      withoutPixels (advanceLine u) =
        { withoutPixels u with vcounter := (advanceLine u).vcounter } := by
    intro u
    unfold advanceLine
    dsimp only
    split <;> rfl
  have h2 : withoutPixels (vblankEdge s) =
      { withoutPixels s with
        is_vblank := (vblankEdge s).is_vblank
        is_irq_gen := (vblankEdge s).is_irq_gen } := by
    unfold vblankEdge
    split
    · dsimp only
      split <;> rfl
    · rfl
  have h3 : (advanceLine s2).is_vblank = (vblankEdge s).is_vblank := by
    have e1 := congrArg TMS9918A.is_vblank (h1 s2)
    have e2 := congrArg TMS9918A.is_vblank hc2
    exact e1.trans e2
  have h4 : (advanceLine s2).is_irq_gen = (vblankEdge s).is_irq_gen := by
    have e1 := congrArg TMS9918A.is_irq_gen (h1 s2)
    have e2 := congrArg TMS9918A.is_irq_gen hc2
    exact e1.trans e2
  rw [h1, hc2, h2, h3, h4]
  rfl

/-! ## The address register stays in range -/

/-- A register write changes nothing but the fields derived from the
registers and the interrupt flag. -/
theorem write_reg_frame (n d : Nat) (t : TMS9918A) :
    write_reg n d t =
      { t with
        m2_bit := (write_reg n d t).m2_bit
        m1_bit := (write_reg n d t).m1_bit
        m3_bit := (write_reg n d t).m3_bit
        mode_val := (write_reg n d t).mode_val
        is_vdp_enabled := (write_reg n d t).is_vdp_enabled
        is_irq := (write_reg n d t).is_irq
        is_irq_gen := (write_reg n d t).is_irq_gen
        pattern_name := (write_reg n d t).pattern_name
        color_table := (write_reg n d t).color_table
        pattern_gen := (write_reg n d t).pattern_gen
        text_color := (write_reg n d t).text_color
        backdrop_color := (write_reg n d t).backdrop_color } := by
  unfold write_reg update_mode
  split
  · rfl
  · split <;> first | rfl | (dsimp only; split_ifs <;> rfl)

theorem write_reg_addr (n d : Nat) (t : TMS9918A) :
    (write_reg n d t).addr_register = t.addr_register := by
  have e := congrArg TMS9918A.addr_register (write_reg_frame n d t)
  exact e

theorem increment_addr_le (s : TMS9918A) (h : s.addr_register ≤ 0x3FFF) :
    (increment_addr s).addr_register ≤ 0x3FFF := by
  unfold increment_addr
  split
  · exact Nat.zero_le _
  · show (s.addr_register + 1) % 65536 ≤ 0x3FFF
    omega

/-- Either phase of a control write leaves the address register in range,
whatever it was before. -/
theorem writeControl_addr_le (d : Nat) (s : TMS9918A) :
    (writeControl d s).addr_register ≤ 0x3FFF := by
  have hm : ∀ x : Nat, x &&& 0x3FFF ≤ 0x3FFF := fun x => by rw [and_3FFF]; omega
  unfold writeControl
  split
  · dsimp only
    split
    · exact increment_addr_le _ (hm _)
    · exact hm _
    · show (write_reg _ _ _).addr_register ≤ _
      rw [write_reg_addr]
      exact hm _
    · show (write_reg _ _ _).addr_register ≤ _
      rw [write_reg_addr]
      exact hm _
    · exact hm _
  · exact hm _

/-- One call keeps the address register in range. -/
theorem step_addr_le (op : Op) (s t : TMS9918A) (h : s.addr_register ≤ 0x3FFF)
    (hstep : step op s = some t) : t.addr_register ≤ 0x3FFF := by
  cases op with
  | init rnd => cases hstep; exact h
  | writeControl d => cases hstep; exact writeControl_addr_le _ _
  | writeData d =>
    cases hstep
    exact increment_addr_le _ h
  | readData =>
    cases hstep
    exact increment_addr_le _ h
  | readStatus => cases hstep; exact h
  | isInterrupt => cases hstep; exact h
  | chipClock =>
    have e := congrArg TMS9918A.addr_register (chipClock_core s t hstep)
    have e2 : t.addr_register = s.addr_register := e
    rw [e2]
    exact h

/-- C5. Address-latch range invariant: if the address register is at most
`0x3FFF`, it still is after any single call (a control write of any byte in
either phase, a data write of any byte, `readData`, `readStatus`,
`isInterrupt`, and also `chipClock` and `init`); hence it is at most `0x3FFF`
in every state reachable from a freshly constructed device. -/
theorem addr_latch_range :
    (∀ (op : Op) (s t : TMS9918A),
      s.addr_register ≤ 0x3FFF → step op s = some t → t.addr_register ≤ 0x3FFF) ∧
    (∀ s : TMS9918A, Reachable s → s.addr_register ≤ 0x3FFF) := by
  refine ⟨step_addr_le, ?_⟩
  intro s hs
  induction hs with
  | fresh vram fb lb => exact Nat.zero_le _
  | step op s t _ hstep ih => exact step_addr_le op s t ih hstep

/-! ## Control latch and register writes -/

theorem write_reg_flag (n d : Nat) (t : TMS9918A) :
    (write_reg n d t).is_second_control_write = t.is_second_control_write := by
  have e := congrArg TMS9918A.is_second_control_write (write_reg_frame n d t)
  exact e

/-- The register-derived fields after `write_reg` depend on the
register-derived fields before it only. -/
theorem write_reg_regFields (n d : Nat) (t u : TMS9918A) (h : regFields t = regFields u) :
    regFields (write_reg n d t) = regFields (write_reg n d u) := by
  have h' := h
  simp only [regFields, RegFields.mk.injEq] at h'
  obtain ⟨h1, h2, h3, h4, h5, h6, h7, h8, h9, h10, h11⟩ := h'
  unfold write_reg update_mode
  split
  · exact h
  · split <;> (try (dsimp only; split_ifs)) <;>
      simp only [regFields, RegFields.mk.injEq, h1, h2, h3, h4, h5, h6, h7, h8, h9, h10, h11,
        and_self]

/-- C6. Control-latch reset: after `readStatus()`, `readData()` or
`writeData(b)` the control latch is clear in every state; in particular, from
a state with the latch clear, `writeControl(a); readStatus(); writeControl(d);
writeControl(0x80 | n)` with `n` in `0..7` performs the register write
`R[n] := d`: the state is `write_reg(n, d)` applied to the state before the
last control write, and its register-derived fields are those that
`write_reg(n, d)` produces from the starting state. -/
theorem latch_reset (s : TMS9918A) (a d n : Nat)
    (hlatch : s.is_second_control_write = false) (_ha : a < 256) (hd : d < 256) (hn : n < 8) :
    (∀ t : TMS9918A, (readStatus t).2.is_second_control_write = false) ∧
    (∀ t : TMS9918A, (readData t).2.is_second_control_write = false) ∧
    (∀ (t : TMS9918A) (b : Nat), (writeData b t).is_second_control_write = false) ∧
    writeControl (0x80 ||| n) (writeControl d (readStatus (writeControl a s)).2) =
      write_reg n d
        { (readStatus (writeControl a s)).2 with
          command_word := 256 * (128 + n) + d
          addr_register := 256 * n + d
          code_register := 2 } ∧
    regFields (writeControl (0x80 ||| n) (writeControl d (readStatus (writeControl a s)).2)) =
      regFields (write_reg n d s) := by
  have hrd : ∀ t : TMS9918A, (readData t).2.is_second_control_write = false := by
    intro t
    unfold readData increment_addr
    dsimp only
    split <;> rfl
  have hwd : ∀ (t : TMS9918A) (b : Nat), (writeData b t).is_second_control_write = false :=
    fun _ _ => rfl
  have hrw := reg_write n d (readStatus (writeControl a s)).2 rfl hn hd
  refine ⟨fun _ => rfl, hrd, hwd, hrw, ?_⟩
  rw [hrw]
  apply write_reg_regFields
  rw [writeControl_first a s hlatch]
  rfl

/-- C6 at the scenario of the specification: `a = 0x00`, `d = 0x00`,
`n = 1`. -/
theorem latch_reset_witness :
    (∀ t : TMS9918A, (readStatus t).2.is_second_control_write = false) ∧
    (∀ t : TMS9918A, (readData t).2.is_second_control_write = false) ∧
    (∀ (t : TMS9918A) (b : Nat), (writeData b t).is_second_control_write = false) ∧
    writeControl (0x80 ||| 1) (writeControl 0x00 (readStatus (writeControl 0x00 blank)).2) =
      write_reg 1 0x00
        { (readStatus (writeControl 0x00 blank)).2 with
          command_word := 256 * (128 + 1) + 0x00
          addr_register := 256 * 1 + 0x00
          code_register := 2 } ∧
    regFields
        (writeControl (0x80 ||| 1) (writeControl 0x00 (readStatus (writeControl 0x00 blank)).2)) =
      regFields (write_reg 1 0x00 blank) :=
  latch_reset blank 0x00 0x00 1 rfl (by decide) (by decide) (by decide)

/-! ## Register decoding -/

/-- The helper `testbit` reads the binary digit: it is `Nat.testBit`. -/
theorem testbit_eq (reg bit : Nat) : testbit reg bit = reg.testBit bit := by
  unfold testbit Nat.testBit
  rw [Nat.and_comm]

theorem write_reg_mode (n d : Nat) (t : TMS9918A) (h : t.mode_val = modeOfBits t) :
    (write_reg n d t).mode_val = modeOfBits (write_reg n d t) := by
  unfold write_reg update_mode
  split
  · exact h
  · split <;> first | exact h | rfl | (dsimp only; split_ifs <;> rfl)

/-- C7. Register-write decoding: from a state with the control latch clear
(and its mode index the one derived from its mode bits, as in every
reachable state), `writeControl(d); writeControl(0x80 | n)` with a byte `d`
and `n` in `0..7` sets, for `n = 0`, M2 to bit 1 of `d`; for `n = 1`, display
enable, frame-interrupt enable, M1 and M3 to bits 6, 5, 4 and 3 of `d`; for
`n = 2` the name-table base to `(d & 0x0F) << 10`; for `n = 3` the
colour-table base to `d << 6`; for `n = 4` the pattern-generator base to
`(d & 0x07) << 11`; for `n = 7` the text colour to `d >> 4` and the backdrop
colour to `d & 0x0F`; the fields of the other registers are unchanged, and
the mode index afterwards is `(M3 << 2) | (M2 << 1) | M1`. -/
theorem reg_write_decoding (s : TMS9918A) (d n : Nat)
    (hlatch : s.is_second_control_write = false) (hmode : s.mode_val = modeOfBits s)
    (hd : d < 256) (hn : n < 8) :
    (writeControl (0x80 ||| n) (writeControl d s)).mode_val
      = modeOfBits (writeControl (0x80 ||| n) (writeControl d s)) ∧
    (n = 0 → regFields (writeControl (0x80 ||| n) (writeControl d s)) =
      { regFields s with
        m2_bit := testbit d 1
        mode_val := (writeControl (0x80 ||| n) (writeControl d s)).mode_val }) ∧
    (n = 1 → regFields (writeControl (0x80 ||| n) (writeControl d s)) =
      { regFields s with
        is_vdp_enabled := testbit d 6
        is_irq := testbit d 5
        m1_bit := testbit d 4
        m3_bit := testbit d 3
        mode_val := (writeControl (0x80 ||| n) (writeControl d s)).mode_val }) ∧
    (n = 2 →
      regFields (writeControl (0x80 ||| n) (writeControl d s)) =
        { regFields s with pattern_name := d &&& 0x0F } ∧
      name_base (writeControl (0x80 ||| n) (writeControl d s)) = (d &&& 0x0F) <<< 10) ∧
    (n = 3 →
      regFields (writeControl (0x80 ||| n) (writeControl d s)) =
        { regFields s with color_table := d } ∧
      color_base (writeControl (0x80 ||| n) (writeControl d s)) = d <<< 6) ∧
    (n = 4 →
      regFields (writeControl (0x80 ||| n) (writeControl d s)) =
        { regFields s with pattern_gen := d &&& 0x07 } ∧
      pattern_base (writeControl (0x80 ||| n) (writeControl d s)) = (d &&& 0x07) <<< 11) ∧
    (n = 7 → regFields (writeControl (0x80 ||| n) (writeControl d s)) =
      { regFields s with text_color := d >>> 4, backdrop_color := d &&& 0x0F }) ∧
    (n = 5 ∨ n = 6 →
      regFields (writeControl (0x80 ||| n) (writeControl d s)) = regFields s) := by
  rw [reg_write n d s hlatch hn hd]
  have hview : regFields
      { s with
        command_word := 256 * (128 + n) + d
        addr_register := 256 * n + d
        code_register := 2 } = regFields s := rfl
  have hm := write_reg_mode n d
      { s with
        command_word := 256 * (128 + n) + d
        addr_register := 256 * n + d
        code_register := 2 } hmode
  rw [write_reg_regFields n d _ s hview]
  refine ⟨hm, ?_, ?_, ?_, ?_, ?_, ?_, ?_⟩
  · rintro rfl; rfl
  · rintro rfl
    simp only [write_reg, update_mode, regFields]
    split_ifs <;> simp_all
  · rintro rfl; exact ⟨rfl, rfl⟩
  · rintro rfl; exact ⟨rfl, rfl⟩
  · rintro rfl; exact ⟨rfl, rfl⟩
  · rintro rfl; rfl
  · rintro (rfl | rfl) <;> rfl

/-- C7 at the display-on write of the specification: `R1 := 0xC0` on a
device right after construction. -/
theorem reg_write_decoding_witness :
    blank.is_second_control_write = false ∧ blank.mode_val = modeOfBits blank ∧
    (writeControl (0x80 ||| 1) (writeControl 0xC0 blank)).mode_val
      = modeOfBits (writeControl (0x80 ||| 1) (writeControl 0xC0 blank)) ∧
    regFields (writeControl (0x80 ||| 1) (writeControl 0xC0 blank)) =
      { regFields blank with
        is_vdp_enabled := testbit 0xC0 6
        is_irq := testbit 0xC0 5
        m1_bit := testbit 0xC0 4
        m3_bit := testbit 0xC0 3
        mode_val := (writeControl (0x80 ||| 1) (writeControl 0xC0 blank)).mode_val } :=
  ⟨rfl, rfl,
    (reg_write_decoding blank 0xC0 1 rfl rfl (by decide) (by decide)).1,
    (reg_write_decoding blank 0xC0 1 rfl rfl (by decide) (by decide)).2.2.1 rfl⟩

/-- Every call keeps the mode index equal to the one derived from the mode
bits. -/
theorem step_mode (op : Op) (s t : TMS9918A) (h : s.mode_val = modeOfBits s)
    (hstep : step op s = some t) : t.mode_val = modeOfBits t := by
  cases op with
  | init rnd => cases hstep; exact h
  | writeControl d =>
    cases hstep
    unfold writeControl
    split
    · dsimp only
      split
      · unfold increment_addr
        dsimp only
        split <;> exact h
      · exact h
      · exact write_reg_mode _ _ _ h
      · exact write_reg_mode _ _ _ h
      · exact h
    · exact h
  | writeData d =>
    cases hstep
    unfold writeData increment_addr
    dsimp only
    split <;> exact h
  | readData =>
    cases hstep
    unfold readData increment_addr
    dsimp only
    split <;> exact h
  | readStatus => cases hstep; exact h
  | isInterrupt => cases hstep; exact h
  | chipClock =>
    have e := chipClock_core s t hstep
    have c1 := congrArg TMS9918A.mode_val e
    have c2 := congrArg TMS9918A.m1_bit e
    have c3 := congrArg TMS9918A.m2_bit e
    have c4 := congrArg TMS9918A.m3_bit e
    have e1 : t.mode_val = s.mode_val := c1
    have e2 : t.m1_bit = s.m1_bit := c2
    have e3 : t.m2_bit = s.m2_bit := c3
    have e4 : t.m3_bit = s.m3_bit := c4
    unfold modeOfBits
    rw [e1, e2, e3, e4]
    exact h

/-- In every reachable state the mode index is the one derived from the
mode bits. -/
theorem reachable_mode (s : TMS9918A) (hs : Reachable s) : s.mode_val = modeOfBits s := by
  induction hs with
  | fresh vram fb lb => simp [fresh, modeOfBits]
  | step op s t _ hstep ih => exact step_mode op s t ih hstep

/-! ## Inert registers and idempotence -/

theorem write_reg_inert (n d : Nat) (t : TMS9918A) (hn : n = 5 ∨ n = 6) :
    write_reg n d t = t := by
  rcases hn with rfl | rfl <;> rfl

/-- C8. Registers 5 and 6 are inert: from a state with the control latch
clear, `writeControl(d); writeControl(0x80 | n)` with a byte `d` and `n` in
`{5, 6}` changes the command word, the code register and the address
register and nothing else: VRAM, read buffer, framebuffer, line buffer,
scanline counter, vblank and interrupt flags, mode index and every
register-derived field are as before. -/
theorem reg_5_6_inert (s : TMS9918A) (d n : Nat)
    (hlatch : s.is_second_control_write = false) (hd : d < 256) (hn : n = 5 ∨ n = 6) :
    writeControl (0x80 ||| n) (writeControl d s) =
      { s with
        command_word := 256 * (128 + n) + d
        addr_register := 256 * n + d
        code_register := 2 } := by
  rw [reg_write n d s hlatch (by omega) hd, write_reg_inert _ _ _ hn]

/-- C8 at `R5 := 0x36`. -/
theorem reg_5_6_inert_witness :
    writeControl (0x80 ||| 5) (writeControl 0x36 blank) =
      { blank with
        command_word := 256 * (128 + 5) + 0x36
        addr_register := 256 * 5 + 0x36
        code_register := 2 } :=
  reg_5_6_inert blank 0x36 5 rfl (by decide) (Or.inl rfl)

theorem write_reg_idem (n d : Nat) (t : TMS9918A) :
    write_reg n d (write_reg n d t) = write_reg n d t := by
  unfold write_reg update_mode
  split
  · rfl
  · split <;> first | rfl | (dsimp only; split_ifs <;> simp_all)

/-- C9. Register writes are idempotent: from a state with the control latch
clear, performing `writeControl(d); writeControl(0x80 | n)` with a byte `d`
and `n` in `0..7` twice in a row gives exactly the state that performing it
once gives. -/
theorem reg_write_idempotent (s : TMS9918A) (d n : Nat)
    (hlatch : s.is_second_control_write = false) (hd : d < 256) (hn : n < 8) :
    writeControl (0x80 ||| n) (writeControl d
        (writeControl (0x80 ||| n) (writeControl d s))) =
      writeControl (0x80 ||| n) (writeControl d s) := by
  have h1 := reg_write n d s hlatch hn hd
  have hf : (writeControl (0x80 ||| n) (writeControl d s)).is_second_control_write = false := by
    rw [h1, write_reg_flag]
    exact hlatch
  rw [reg_write n d _ hf hn hd]
  have hkeep : ({ writeControl (0x80 ||| n) (writeControl d s) with
        command_word := 256 * (128 + n) + d
        addr_register := 256 * n + d
        code_register := 2 } : TMS9918A) = writeControl (0x80 ||| n) (writeControl d s) := by
    rw [h1]
    rw [write_reg_frame]
  rw [hkeep, h1, write_reg_idem]

/-- C9 at `R1 := 0xE0` while vblank is latched. -/
theorem reg_write_idempotent_witness :
    writeControl (0x80 ||| 1) (writeControl 0xE0
        (writeControl (0x80 ||| 1) (writeControl 0xE0 { blank with is_vblank := true }))) =
      writeControl (0x80 ||| 1) (writeControl 0xE0 { blank with is_vblank := true }) :=
  reg_write_idempotent { blank with is_vblank := true } 0xE0 1 rfl (by decide) (by decide)

/-! ## Status port -/

/-- C10. Postcondition of `readStatus`: it returns `0x80` if the vblank
flag is set and `0x00` otherwise; afterwards the vblank flag and the control
latch are clear and every other component (interrupt flag, VRAM, address
register, read buffer and the rest) is unchanged, so a second `readStatus()`
right after returns `0x00`. -/
theorem readStatus_post (s : TMS9918A) :
    (readStatus s).1 = (if s.is_vblank then 0x80 else 0x00) ∧
    (readStatus s).2 = { s with is_vblank := false, is_second_control_write := false } ∧
    (readStatus (readStatus s).2).1 = 0x00 := by
  refine ⟨?_, rfl, rfl⟩
  unfold readStatus
  cases s.is_vblank <;> rfl

/-! ## Interrupt latch -/

/-- C11. `isInterrupt` is a one-shot query: in every state it returns the
interrupt-pending flag and leaves it clear, with every other component
unchanged, so a second call right after any call returns false. -/
theorem isInterrupt_one_shot (s : TMS9918A) :
    (isInterrupt s).1 = s.is_irq_gen ∧
    (isInterrupt s).2 = { s with is_irq_gen := false } ∧
    (isInterrupt (isInterrupt s).2).1 = false :=
  ⟨rfl, rfl, rfl⟩

/-- A second control write of the byte `e`: the command word gets `e` as
its high byte and the code `e / 64` selects what happens. -/
theorem writeControl_second (e : Nat) (s : TMS9918A) (h : s.is_second_control_write = true)
    (he : e < 256) :
    writeControl e s =
      let s3 : TMS9918A :=
        { s with
          command_word := 256 * e + s.command_word % 256
          addr_register := (256 * e + s.command_word % 256) % 16384
          code_register := e / 64 }
      let s4 :=
        match e / 64 with
        | 0 => increment_addr
            { s3 with read_buffer := s.vram ((256 * e + s.command_word % 256) % 16384) }
        | 1 => s3
        | 2 => write_reg (e % 8) (s.command_word % 256) s3
        | 3 => write_reg (e % 8) (s.command_word % 256) s3
        | _ => s3
      { s4 with is_second_control_write := false } := by
  have hcw := cw_second s.command_word e he
  have h14 : (256 * e + s.command_word % 256) >>> 14 = e / 64 := by rw [shr_14]; omega
  have h8 : ((256 * e + s.command_word % 256) >>> 8) &&& 0x7 = e % 8 := by
    rw [shr_8, and_7]; omega
  have hlo : ((256 * e + s.command_word % 256) &&& 0xFF) % 256 = s.command_word % 256 := by
    rw [and_FF]; omega
  simp only [writeControl, h, if_true, hcw, h14, h8, hlo, and_3FFF]

theorem write_reg_irq_gen (n d : Nat) (t : TMS9918A) :
    (write_reg n d t).is_irq_gen =
      (t.is_irq_gen || (decide (n = 1) && (t.is_vblank && testbit d 5))) := by
  unfold write_reg update_mode
  split
  · have hn : ¬ n = 1 := by omega
    simp [hn]
  · split
    · simp
    · dsimp only
      split_ifs <;> simp_all
    · simp
    · simp
    · simp
    · simp
    · rename_i h0 h1 h2 h3 h4 h7
      have hn : ¬ n = 1 := fun e => h1 e
      simp [hn]

/-! ## One tick -/

theorem vblankEdge_effect (s : TMS9918A) :
    vblankEdge s =
      { s with
        is_vblank := (s.is_vblank || decide (s.vcounter = getHeight))
        is_irq_gen := (s.is_irq_gen || (decide (s.vcounter = getHeight) && s.is_irq)) } := by
  unfold vblankEdge
  split
  · rename_i h
    dsimp only
    split <;> simp_all
  · rename_i h
    simp [h]

theorem vblankEdge_visible (s : TMS9918A) (hv : s.vcounter < getHeight) : vblankEdge s = s := by
  unfold vblankEdge
  rw [if_neg (Nat.ne_of_lt hv)]

theorem advanceLine_framebuffer (s : TMS9918A) :
    (advanceLine s).framebuffer = s.framebuffer ∧ (advanceLine s).linebuffer = s.linebuffer := by
  unfold advanceLine
  dsimp only
  split <;> exact ⟨rfl, rfl⟩

theorem advanceLine_vcounter (s : TMS9918A) (hv : s.vcounter ≤ 261) :
    (advanceLine s).vcounter = (s.vcounter + 1) % 262 := by
  unfold advanceLine numScanlines
  dsimp only
  split
  · rename_i h
    show 0 = _
    omega
  · rename_i h
    show (s.vcounter + 1) % 65536 = _
    omega

/-- What a tick that returns does to the flags and the scanline counter. -/
theorem chipClock_effect (s t : TMS9918A) (h : chipClock s = some t) :
    t.is_vblank = (s.is_vblank || decide (s.vcounter = getHeight)) ∧
    t.is_irq_gen = (s.is_irq_gen || (decide (s.vcounter = getHeight) && s.is_irq)) ∧
    t.vcounter = (advanceLine s).vcounter := by
  rw [chipClock_eq] at h
  obtain ⟨s2, hr, rfl⟩ := Option.map_eq_some'.mp h
  have hc2 : withoutPixels s2 = withoutPixels (vblankEdge s) := by
    split at hr
    · exact render_scanline_core _ _ hr
    · cases hr
      rfl
  rw [vblankEdge_effect] at hc2
  have c1 := congrArg TMS9918A.is_vblank hc2
  have c2 := congrArg TMS9918A.is_irq_gen hc2
  have c3 := congrArg TMS9918A.vcounter hc2
  have e1 : s2.is_vblank = (s.is_vblank || decide (s.vcounter = getHeight)) := c1
  have e2 : s2.is_irq_gen = (s.is_irq_gen || (decide (s.vcounter = getHeight) && s.is_irq)) := c2
  have e3 : s2.vcounter = s.vcounter := c3
  refine ⟨?_, ?_, ?_⟩
  · rw [← e1]
    unfold advanceLine
    dsimp only
    split <;> rfl
  · rw [← e2]
    unfold advanceLine
    dsimp only
    split <;> rfl
  · unfold advanceLine
    dsimp only
    rw [e3]
    split <;> rfl

theorem increment_addr_irq_gen (s : TMS9918A) :
    (increment_addr s).is_irq_gen = s.is_irq_gen := by
  unfold increment_addr
  split <;> rfl

/-- The interrupt flag after a control write. -/
theorem writeControl_irq_gen (e : Nat) (s : TMS9918A) (he : e < 256) :
    (writeControl e s).is_irq_gen =
      (s.is_irq_gen ||
        (s.is_second_control_write && (decide (2 ≤ e / 64) && (decide (e % 8 = 1) &&
          (s.is_vblank && testbit (s.command_word % 256) 5))))) := by
  by_cases hf : s.is_second_control_write = true
  · rw [writeControl_second e s hf he]
    have hk : e / 64 = 0 ∨ e / 64 = 1 ∨ e / 64 = 2 ∨ e / 64 = 3 := by omega
    rcases hk with hk | hk | hk | hk <;> simp only [hk]
    · show (increment_addr _).is_irq_gen = _
      rw [increment_addr_irq_gen]
      simp
    · simp
    · show (write_reg _ _ _).is_irq_gen = _
      rw [write_reg_irq_gen]
      simp [hf]
    · show (write_reg _ _ _).is_irq_gen = _
      rw [write_reg_irq_gen]
      simp [hf]
  · have hf2 : s.is_second_control_write = false := by simpa using hf
    rw [writeControl_first e s hf2]
    simp [hf2]

/-- C13. Characterisation of interrupt arming: across a single call that
starts with the interrupt-pending flag clear, the flag is set afterwards
exactly when either (a) the call is `chipClock`, the scanline counter before
it is 192 and the frame interrupt is enabled, or (b) the call is the second
control write of a register write (code 2 or 3) to R1 whose data byte has
bit 5 set, made while the vblank flag is set; no other call sets the flag. -/
theorem interrupt_arming (op : Op) (s t : TMS9918A)
    (hstep : step op s = some t) (hclear : s.is_irq_gen = false) :
    t.is_irq_gen = true ↔
      (op = Op.chipClock ∧ s.vcounter = 192 ∧ s.is_irq = true) ∨
      (∃ e : Fin 256, op = Op.writeControl e ∧ s.is_second_control_write = true ∧
        (e.val >>> 6 = 2 ∨ e.val >>> 6 = 3) ∧ e.val &&& 0x07 = 1 ∧
        testbit (s.command_word &&& 0xFF) 5 = true ∧ s.is_vblank = true) := by
  cases op with
  | chipClock =>
    rw [(chipClock_effect s t hstep).2.1, hclear]
    simp [getHeight]
  | writeControl e =>
    cases hstep
    rw [writeControl_irq_gen e.val s e.isLt, hclear]
    simp only [and_FF, and_7, Nat.shiftRight_eq_div_pow]
    have h4 : e.val / 64 < 4 := by have := e.isLt; omega
    constructor
    · intro h
      simp only [Bool.false_or, Bool.and_eq_true, decide_eq_true_eq] at h
      obtain ⟨h1, h2, h3, h5, h6⟩ := h
      refine Or.inr ⟨e, rfl, h1, ?_, h3, h6, h5⟩
      show e.val / 64 = 2 ∨ e.val / 64 = 3
      omega
    · rintro (⟨h, -⟩ | ⟨e2, h0, h1, h2, h3, h6, h5⟩)
      · cases h
      · cases h0
        simp only [Bool.false_or, Bool.and_eq_true, decide_eq_true_eq]
        have h2b : e.val / 64 = 2 ∨ e.val / 64 = 3 := h2
        exact ⟨h1, by omega, h3, h5, h6⟩
  | init rnd => cases hstep; simp [init, hclear]
  | writeData d =>
    cases hstep
    have e : (writeData d.val s).is_irq_gen = s.is_irq_gen := increment_addr_irq_gen _
    simp [e, hclear]
  | readData =>
    cases hstep
    have e : (readData s).2.is_irq_gen = s.is_irq_gen := increment_addr_irq_gen _
    simp [e, hclear]
  | readStatus => cases hstep; simp [readStatus, hclear]
  | isInterrupt => cases hstep; simp [isInterrupt]

/-- C13 at the tick of line 192 with the frame interrupt enabled. -/
theorem interrupt_arming_witness :
    (advanceLine (vblankEdge { blank with vcounter := 192, is_irq := true })).is_irq_gen = true ↔
      (Op.chipClock = Op.chipClock ∧
        ({ blank with vcounter := 192, is_irq := true } : TMS9918A).vcounter = 192 ∧
        ({ blank with vcounter := 192, is_irq := true } : TMS9918A).is_irq = true) ∨
      (∃ e : Fin 256, Op.chipClock = Op.writeControl e ∧
        ({ blank with vcounter := 192, is_irq := true } : TMS9918A).is_second_control_write = true ∧
        (e.val >>> 6 = 2 ∨ e.val >>> 6 = 3) ∧ e.val &&& 0x07 = 1 ∧
        testbit (({ blank with vcounter := 192, is_irq := true } : TMS9918A).command_word &&& 0xFF) 5
          = true ∧
        ({ blank with vcounter := 192, is_irq := true } : TMS9918A).is_vblank = true) :=
  interrupt_arming Op.chipClock { blank with vcounter := 192, is_irq := true }
    (advanceLine (vblankEdge { blank with vcounter := 192, is_irq := true })) rfl rfl

/-! ## Runs of ticks -/

theorem render_backdrop_mode (s : TMS9918A) : (render_backdrop s).mode_val = s.mode_val := by
  have c := congrArg TMS9918A.mode_val (render_backdrop_core s)
  exact c

/-- The scanline renderer returns when the display is disabled or the mode
index is 0, 1 or 2. -/
theorem render_scanline_total (s : TMS9918A)
    (h : s.is_vdp_enabled = false ∨ s.mode_val ≤ 2) : ∃ t, render_scanline s = some t := by
  unfold render_scanline
  split
  · exact ⟨_, rfl⟩
  · rename_i hen
    have hm : s.mode_val ≤ 2 := by
      rcases h with h | h
      · simp [h] at hen
      · exact h
    dsimp only
    rw [render_backdrop_mode]
    have hk : s.mode_val = 0 ∨ s.mode_val = 1 ∨ s.mode_val = 2 := by omega
    rcases hk with hk | hk | hk <;> rw [hk] <;> exact ⟨_, rfl⟩

/-- A tick returns when the display is disabled or the mode index is 0, 1
or 2. -/
theorem chipClock_total (s : TMS9918A)
    (h : s.is_vdp_enabled = false ∨ s.mode_val ≤ 2) : ∃ t, chipClock s = some t := by
  rw [chipClock_eq]
  split
  · have h2 : (vblankEdge s).is_vdp_enabled = false ∨ (vblankEdge s).mode_val ≤ 2 := by
      rw [vblankEdge_effect]
      exact h
    obtain ⟨t, ht⟩ := render_scanline_total _ h2
    rw [ht]
    exact ⟨_, rfl⟩
  · exact ⟨_, rfl⟩

/-- A tick does not change whether rendering returns. -/
theorem chipClock_render_cond (s t : TMS9918A) (h : chipClock s = some t) :
    t.is_vdp_enabled = s.is_vdp_enabled ∧ t.mode_val = s.mode_val ∧ t.is_irq = s.is_irq := by
  have e := chipClock_core s t h
  have c1 := congrArg TMS9918A.is_vdp_enabled e
  have c2 := congrArg TMS9918A.mode_val e
  have c3 := congrArg TMS9918A.is_irq e
  exact ⟨c1, c2, c3⟩

theorem ticks_add (m n : Nat) (s : TMS9918A) :
    ticks (m + n) s = (ticks m s).bind (ticks n) := by
  induction m generalizing s with
  | zero =>
    rw [Nat.zero_add]
    rfl
  | succ m ih =>
    have e : m + 1 + n = (m + n) + 1 := by omega
    rw [e]
    show (chipClock s).bind (ticks (m + n)) = ((chipClock s).bind (ticks m)).bind (ticks n)
    cases hc : chipClock s with
    | none => rfl
    | some u =>
      show ticks (m + n) u = (ticks m u).bind (ticks n)
      exact ih u

/-- A run of ticks that returns has returned after each of its prefixes. -/
theorem ticks_prefix (m n : Nat) (s t : TMS9918A) (h : ticks (m + n) s = some t) :
    ∃ u, ticks m s = some u ∧ ticks n u = some t := by
  rw [ticks_add] at h
  cases hm : ticks m s with
  | none => rw [hm] at h; cases h
  | some u => rw [hm] at h; exact ⟨u, rfl, h⟩

theorem ticks_vcounter (n : Nat) (s t : TMS9918A) (h : ticks n s = some t)
    (hv : s.vcounter ≤ 261) : t.vcounter = (s.vcounter + n) % 262 := by
  induction n generalizing s with
  | zero =>
    cases h
    omega
  | succ n ih =>
    have h2 : (chipClock s).bind (ticks n) = some t := h
    cases hc : chipClock s with
    | none => rw [hc] at h2; cases h2
    | some u =>
      rw [hc] at h2
      have hu : u.vcounter = (s.vcounter + 1) % 262 := by
        rw [(chipClock_effect s u hc).2.2, advanceLine_vcounter s hv]
      rw [ih u h2 (by omega), hu]
      omega

theorem ticks_total (n : Nat) (s : TMS9918A)
    (h : s.is_vdp_enabled = false ∨ s.mode_val ≤ 2) : ∃ t, ticks n s = some t := by
  induction n generalizing s with
  | zero => exact ⟨s, rfl⟩
  | succ n ih =>
    obtain ⟨u, hu⟩ := chipClock_total s h
    obtain ⟨hen, hmode, -⟩ := chipClock_render_cond s u hu
    obtain ⟨t, ht⟩ := ih u (by rw [hen, hmode]; exact h)
    refine ⟨t, ?_⟩
    show (chipClock s).bind (ticks n) = some t
    rw [hu]
    exact ht

/-- C14. Vblank is latched once per frame at line 192: a tick that returns
sets the vblank flag if the scanline counter before it is 192 and leaves the
flag as it was otherwise (it never clears it); so in a run of 262 ticks that
starts with the counter in `0..261` and returns, exactly one tick (the `i`-th,
counted from 0) starts with the counter at 192 and sets the flag. -/
theorem vblank_once_per_frame (s t : TMS9918A)
    (hv : s.vcounter ≤ 261) (hrun : ticks 262 s = some t) :
    (∀ u w : TMS9918A, chipClock u = some w →
      (u.vcounter = 192 → w.is_vblank = true) ∧
      (u.vcounter ≠ 192 → w.is_vblank = u.is_vblank)) ∧
    (∃! i, i < 262 ∧ ∃ u w, ticks i s = some u ∧ chipClock u = some w ∧ u.vcounter = 192) := by
  constructor
  · intro u w h
    have e := (chipClock_effect u w h).1
    constructor
    · intro h192
      rw [e]
      simp [getHeight, h192]
    · intro h192
      rw [e]
      simp [getHeight, h192]
  · have hpre : ∀ i, i < 262 → ∃ u w, ticks i s = some u ∧ chipClock u = some w ∧
        u.vcounter = (s.vcounter + i) % 262 := by
      intro i hi
      have e : 262 = i + ((261 - i) + 1) := by omega
      rw [e] at hrun
      obtain ⟨u, hu, hrest⟩ := ticks_prefix _ _ s t hrun
      have h2 : (chipClock u).bind (ticks (261 - i)) = some t := hrest
      cases hc : chipClock u with
      | none => rw [hc] at h2; cases h2
      | some w => exact ⟨u, w, hu, hc, ticks_vcounter i s u hu hv⟩
    refine ⟨(454 - s.vcounter) % 262, ⟨Nat.mod_lt _ (by decide), ?_⟩, ?_⟩
    · obtain ⟨u, w, hu, hw, hvu⟩ := hpre ((454 - s.vcounter) % 262) (Nat.mod_lt _ (by decide))
      refine ⟨u, w, hu, hw, ?_⟩
      rw [hvu]
      omega
    · rintro i ⟨hi, u, w, hu, -, h192⟩
      have := ticks_vcounter i s u hu hv
      omega

/-- C14 on a device right after construction (display disabled). -/
theorem vblank_once_per_frame_witness :
    ∃ t, ticks 262 blank = some t ∧
      ∃! i, i < 262 ∧ ∃ u w, ticks i blank = some u ∧ chipClock u = some w ∧ u.vcounter = 192 := by
  obtain ⟨t, ht⟩ := ticks_total 262 blank (Or.inl rfl)
  exact ⟨t, ht, (vblank_once_per_frame blank t (by decide) ht).2⟩

/-- C15. Frame period of the scanline counter: from a state with the counter
`v` in `0..261` in which rendering returns (display disabled, or mode index 0,
1 or 2), a tick returns with the counter at `(v + 1) mod 262`, again in
`0..261`; 262 ticks in a row bring the counter back to `v`, and no smaller
positive number of ticks does. -/
theorem frame_period (s : TMS9918A) (hv : s.vcounter ≤ 261)
    (hrender : s.is_vdp_enabled = false ∨ s.mode_val ≤ 2) :
    (∃ t, chipClock s = some t ∧ t.vcounter = (s.vcounter + 1) % 262 ∧ t.vcounter ≤ 261) ∧
    (∃ t, ticks 262 s = some t ∧ t.vcounter = s.vcounter) ∧
    (∀ n, 0 < n → n < 262 → ∃ t, ticks n s = some t ∧ t.vcounter ≠ s.vcounter) := by
  refine ⟨?_, ?_, ?_⟩
  · obtain ⟨t, ht⟩ := chipClock_total s hrender
    have e : t.vcounter = (s.vcounter + 1) % 262 := by
      rw [(chipClock_effect s t ht).2.2, advanceLine_vcounter s hv]
    exact ⟨t, ht, e, by omega⟩
  · obtain ⟨t, ht⟩ := ticks_total 262 s hrender
    have e := ticks_vcounter 262 s t ht hv
    exact ⟨t, ht, by omega⟩
  · intro n h0 hn
    obtain ⟨t, ht⟩ := ticks_total n s hrender
    have e := ticks_vcounter n s t ht hv
    exact ⟨t, ht, by omega⟩

/-- C15 on a device right after construction (counter 0, display
disabled). -/
theorem frame_period_witness :
    (∃ t, chipClock blank = some t ∧ t.vcounter = (blank.vcounter + 1) % 262 ∧
      t.vcounter ≤ 261) ∧
    (∃ t, ticks 262 blank = some t ∧ t.vcounter = blank.vcounter) ∧
    (∀ n, 0 < n → n < 262 → ∃ t, ticks n blank = some t ∧ t.vcounter ≠ blank.vcounter) :=
  frame_period blank (by decide) (Or.inl rfl)

/-! ## The interrupt scenario -/

/-- Ticks that all start above line 192 leave the vblank and interrupt
flags alone. -/
theorem ticks_flags_visible (n : Nat) (s t : TMS9918A) (h : ticks n s = some t)
    (hv : s.vcounter + n ≤ 192) :
    t.is_irq_gen = s.is_irq_gen ∧ t.is_vblank = s.is_vblank ∧ t.is_irq = s.is_irq ∧
    t.is_vdp_enabled = s.is_vdp_enabled ∧ t.mode_val = s.mode_val ∧
    t.vcounter = s.vcounter + n := by
  induction n generalizing s with
  | zero =>
    cases h
    exact ⟨rfl, rfl, rfl, rfl, rfl, rfl⟩
  | succ n ih =>
    have h2 : (chipClock s).bind (ticks n) = some t := h
    cases hc : chipClock s with
    | none => rw [hc] at h2; cases h2
    | some u =>
      rw [hc] at h2
      obtain ⟨e1, e2, e3⟩ := chipClock_effect s u hc
      obtain ⟨c1, c2, c3⟩ := chipClock_render_cond s u hc
      have hne : ¬ s.vcounter = getHeight := by unfold getHeight; omega
      rw [advanceLine_vcounter s (by omega)] at e3
      have e3b : u.vcounter = s.vcounter + 1 := by omega
      simp only [hne, decide_False, Bool.or_false, Bool.false_and] at e1 e2
      obtain ⟨i1, i2, i3, i4, i5, i6⟩ := ih u h2 (by omega)
      refine ⟨by rw [i1, e2], by rw [i2, e1], by rw [i3, c3], by rw [i4, c1], by rw [i5, c2], ?_⟩
      omega

/-- The effect of `write_reg` on register 1. -/
theorem write_reg_1 (d : Nat) (t : TMS9918A) :
    write_reg 1 d t =
      { t with
        is_vdp_enabled := testbit d 6
        is_irq := testbit d 5
        m1_bit := testbit d 4
        m3_bit := testbit d 3
        mode_val := (testbit d 3).toNat <<< 2 ||| t.m2_bit.toNat <<< 1 ||| (testbit d 4).toNat
        is_irq_gen := (t.is_irq_gen || (t.is_vblank && testbit d 5)) } := by
  simp only [write_reg, update_mode]
  split_ifs <;> simp_all

/-- The register write `R1 := 0xE0` on a device with the startup values of
the registers: display and frame interrupt enabled, mode index 0, and the
interrupt raised at once if the vblank flag is set. -/
theorem reg1_E0 (s : TMS9918A) (hlatch : s.is_second_control_write = false)
    (hm2 : s.m2_bit = false) :
    (writeControl 0x81 (writeControl 0xE0 s)).is_irq = true ∧
    (writeControl 0x81 (writeControl 0xE0 s)).is_vdp_enabled = true ∧
    (writeControl 0x81 (writeControl 0xE0 s)).mode_val = 0 ∧
    (writeControl 0x81 (writeControl 0xE0 s)).vcounter = s.vcounter ∧
    (writeControl 0x81 (writeControl 0xE0 s)).is_irq_gen = (s.is_irq_gen || s.is_vblank) := by
  have e : (0x81 : Nat) = 0x80 ||| 1 := by decide
  rw [e, reg_write 1 0xE0 s hlatch (by decide) (by decide), write_reg_1]
  have h6 : testbit 0xE0 6 = true := by decide
  have h5 : testbit 0xE0 5 = true := by decide
  have h4 : testbit 0xE0 4 = false := by decide
  have h3 : testbit 0xE0 3 = false := by decide
  refine ⟨h5, h6, ?_, rfl, ?_⟩
  · show (testbit 0xE0 3).toNat <<< 2 ||| s.m2_bit.toNat <<< 1 ||| (testbit 0xE0 4).toNat = 0
    rw [h3, h4, hm2]
    decide
  · show (s.is_irq_gen || (s.is_vblank && testbit 0xE0 5)) = _
    rw [h5, Bool.and_true]

/-- The first 192 ticks after `R1 := 0xE0`, from line 0: they return, and
the interrupt flag is still what the register write left. -/
theorem scenario_ticks (s : TMS9918A) (hlatch : s.is_second_control_write = false)
    (hm2 : s.m2_bit = false) (hv : s.vcounter = 0) :
    ∃ t, ticks 192 (writeControl 0x81 (writeControl 0xE0 s)) = some t ∧
      t.is_irq_gen = (s.is_irq_gen || s.is_vblank) ∧ t.vcounter = 192 ∧ t.is_irq = true ∧
      t.mode_val = 0 := by
  obtain ⟨r1, r2, r3, r4, r5⟩ := reg1_E0 s hlatch hm2
  obtain ⟨t, ht⟩ := ticks_total 192 (writeControl 0x81 (writeControl 0xE0 s))
    (Or.inr (by rw [r3]; decide))
  obtain ⟨f1, -, f3, -, f5, f6⟩ := ticks_flags_visible 192 _ t ht (by rw [r4, hv])
  refine ⟨t, ht, by rw [f1, r5], by rw [f6, r4, hv], by rw [f3, r1], by rw [f5, r3]⟩

/-- The tick at line 192 with the frame interrupt enabled raises the
interrupt. -/
theorem tick_at_192 (t : TMS9918A) (hv : t.vcounter = 192) (hirq : t.is_irq = true)
    (hmode : t.mode_val = 0) : ∃ w, chipClock t = some w ∧ w.is_irq_gen = true := by
  obtain ⟨w, hw⟩ := chipClock_total t (Or.inr (by rw [hmode]; decide))
  refine ⟨w, hw, ?_⟩
  rw [(chipClock_effect t w hw).2.1, hv, hirq]
  simp [getHeight]

/-- C12, as the code has it. `init` leaves the vblank flag set, so from the
state that `init()` produces on a freshly constructed device the register
write `R1 := 0xE0` raises the interrupt at once: after it and 192 ticks
`isInterrupt()` returns true. Once a `readStatus()` has cleared the vblank
flag (scanline counter 0, registers 0, vblank and interrupt flags clear), the
scenario runs as described: after `R1 := 0xE0` and 192 ticks `isInterrupt()`
returns false; after one more tick (the one at line 192) it returns true, and
a second call right after returns false. -/
theorem interrupt_scenario (rnd vram : Nat → Nat) (fb lb : Nat → BeeVDPRGB) :
    (∃ t, ticks 192 (writeControl 0x81 (writeControl 0xE0 (init rnd (fresh vram fb lb))))
        = some t ∧ (isInterrupt t).1 = true) ∧
    (∃ t w,
      ticks 192
        (writeControl 0x81 (writeControl 0xE0 (readStatus (init rnd (fresh vram fb lb))).2))
        = some t ∧
      (isInterrupt t).1 = false ∧
      chipClock (isInterrupt t).2 = some w ∧
      (isInterrupt w).1 = true ∧
      (isInterrupt (isInterrupt w).2).1 = false) := by
  constructor
  · obtain ⟨t, ht, hgen, -⟩ := scenario_ticks (init rnd (fresh vram fb lb)) rfl rfl rfl
    exact ⟨t, ht, hgen⟩
  · obtain ⟨t, ht, hgen, hv, hirq, hmode⟩ :=
      scenario_ticks (readStatus (init rnd (fresh vram fb lb))).2 rfl rfl rfl
    obtain ⟨w, hw, hwgen⟩ := tick_at_192 (isInterrupt t).2 hv hirq hmode
    exact ⟨t, w, ht, hgen, hw, hwgen, rfl⟩

/-- C12 as stated fails on a device initialised with zeroed VRAM: after
`R1 := 0xE0` and 192 ticks `isInterrupt()` returns true, not false. -/
theorem interrupt_scenario_counterexample :
    ∃ t, ticks 192 (writeControl 0x81 (writeControl 0xE0 (init (fun _ => 0) blank))) = some t ∧
      (isInterrupt t).1 = true ∧ (isInterrupt t).1 ≠ false := by
  obtain ⟨t, ht, hgen, -⟩ := scenario_ticks (init (fun _ => 0) blank) rfl rfl rfl
  have h1 : (isInterrupt t).1 = true := hgen
  exact ⟨t, ht, h1, by rw [h1]; decide⟩

/-! ## Host ports and the framebuffer -/

theorem write_reg_framebuffer (n d : Nat) (t : TMS9918A) :
    (write_reg n d t).framebuffer = t.framebuffer := by
  have c := congrArg TMS9918A.framebuffer (write_reg_frame n d t)
  exact c

theorem increment_addr_framebuffer (s : TMS9918A) :
    (increment_addr s).framebuffer = s.framebuffer := by
  unfold increment_addr
  split <;> rfl

theorem writeControl_framebuffer (d : Nat) (s : TMS9918A) :
    (writeControl d s).framebuffer = s.framebuffer := by
  unfold writeControl
  split
  · dsimp only
    split
    · exact increment_addr_framebuffer _
    · rfl
    · exact write_reg_framebuffer _ _ _
    · exact write_reg_framebuffer _ _ _
    · rfl
  · rfl

/-- A port operation returns and leaves the framebuffer as it was. -/
theorem step_port_framebuffer (op : Op) (s : TMS9918A) (h : op.isPort = true) :
    ∃ t, step op s = some t ∧ t.framebuffer = s.framebuffer := by
  cases op with
  | init rnd => cases h
  | chipClock => cases h
  | writeControl d => exact ⟨_, rfl, writeControl_framebuffer _ _⟩
  | writeData d => exact ⟨_, rfl, increment_addr_framebuffer _⟩
  | readData => exact ⟨_, rfl, increment_addr_framebuffer _⟩
  | readStatus => exact ⟨_, rfl, rfl⟩
  | isInterrupt => exact ⟨_, rfl, rfl⟩

/-- C16. Host ports never touch the framebuffer: from every state, every
finite sequence of port operations (`writeControl`, `writeData`, `readData`,
`readStatus`, `isInterrupt`, with any byte arguments) runs to its end and
leaves the framebuffer identical to the one before it. -/
theorem ports_keep_framebuffer (ops : List Op) (s : TMS9918A)
    (hports : ∀ op, op ∈ ops → op.isPort = true) :
    ∃ t, run ops s = some t ∧ t.framebuffer = s.framebuffer := by
  induction ops generalizing s with
  | nil => exact ⟨s, rfl, rfl⟩
  | cons op ops ih =>
    obtain ⟨u, hu, hfb⟩ := step_port_framebuffer op s (hports op (List.mem_cons_self _ _))
    obtain ⟨t, ht, hfb2⟩ := ih u (fun o ho => hports o (List.mem_cons_of_mem _ ho))
    refine ⟨t, ?_, by rw [hfb2, hfb]⟩
    show (step op s).bind (run ops) = some t
    rw [hu]
    exact ht

/-- C16 on a register write, a data write, a data read, a status read and
an interrupt query in a row. -/
theorem ports_keep_framebuffer_witness :
    ∃ t, run [Op.writeControl 0xC0, Op.writeControl 0x81, Op.writeData 0xAA, Op.readData,
        Op.readStatus, Op.isInterrupt] blank = some t ∧
      t.framebuffer = blank.framebuffer :=
  ports_keep_framebuffer _ blank (by
    intro op hop
    simp only [List.mem_cons, List.mem_singleton, List.not_mem_nil, or_false] at hop
    rcases hop with h | h | h | h | h | h <;> rw [h] <;> rfl)

/-! ## Painting the line buffer -/

/-- Loop invariants: a property that holds at the start and is carried by
each step of a loop over `0 .. n-1` holds at its end. -/
theorem foldl_range_inv {σ : Type} (P : Nat → σ → Prop) (f : σ → Nat → σ) (n : Nat) (s : σ)
    (h0 : P 0 s) (hstep : ∀ k st, k < n → P k st → P (k + 1) (f st k)) :
    P n ((List.range n).foldl f s) := by
  induction n with
  | zero => exact h0
  | succ n ih =>
    rw [List.range_succ, List.foldl_append]
    exact hstep n _ (Nat.lt_succ_self n)
      (ih (fun k st hk hp => hstep k st (Nat.lt_succ_of_lt hk) hp))

theorem set_pixel_eq (x v : Nat) (c : BeeVDPRGB) (st : TMS9918A) (hx : x < 256) (hv : v < 192) :
    set_pixel x v c st =
      { st with render_line := v, linebuffer := Function.update st.linebuffer x c } := by
  unfold set_pixel inRange getWidth getHeight
  simp [hx, hv]

theorem set_pixel_line (x v : Nat) (c : BeeVDPRGB) (st : TMS9918A) :
    withoutLine (set_pixel x v c st) = withoutLine st := by
  unfold set_pixel
  split <;> rfl

/-- A loop that paints the pixels `base .. base + n - 1` of line `v`, one
per step, with colours that do not depend on the line buffer: afterwards
these pixels of the line buffer hold their colours, the others are as
before, and nothing but the line buffer and the render line has changed. -/
theorem paint_run (v : Nat) (hv : v < 192) (base n : Nat) (hb : base + n ≤ 256)
    (s : TMS9918A) (col : TMS9918A → Nat → BeeVDPRGB)
    (hcol : ∀ st k, withoutLine st = withoutLine s → col st k = col s k)
    (f : TMS9918A → Nat → TMS9918A)
    (hf : ∀ st k, k < n → f st k = set_pixel (base + k) v (col st k) st) :
    withoutLine ((List.range n).foldl f s) = withoutLine s ∧
    (0 < n → ((List.range n).foldl f s).render_line = v) ∧
    ∀ x, ((List.range n).foldl f s).linebuffer x =
      if base ≤ x ∧ x < base + n then col s (x - base) else s.linebuffer x := by
  apply foldl_range_inv
    (fun k st => withoutLine st = withoutLine s ∧ (0 < k → st.render_line = v) ∧
      ∀ x, st.linebuffer x =
        if base ≤ x ∧ x < base + k then col s (x - base) else s.linebuffer x)
  · refine ⟨rfl, fun h => absurd h (by omega), fun x => ?_⟩
    rw [if_neg (by omega)]
  · intro k st hk ⟨h1, _, h3⟩
    rw [hf st k hk, set_pixel_eq _ _ _ _ (by omega) hv]
    refine ⟨h1, fun _ => rfl, fun x => ?_⟩
    show Function.update st.linebuffer (base + k) (col st k) x = _
    by_cases hx : x = base + k
    · subst hx
      rw [Function.update_same, if_pos (by omega), Nat.add_sub_cancel_left, hcol st k h1]
    · rw [Function.update_noteq hx, h3 x]
      split_ifs with c1 c2 c2
      · rfl
      · exfalso; omega
      · exfalso; omega
      · rfl

/-- `paint_run` as a rule: what holds for every state that `paint_run`
describes holds for the state after the loop. -/
theorem paint_run_rule (v : Nat) (hv : v < 192) (base n : Nat) (hb : base + n ≤ 256)
    (s : TMS9918A) (col : TMS9918A → Nat → BeeVDPRGB)
    (hcol : ∀ st k, withoutLine st = withoutLine s → col st k = col s k)
    (f : TMS9918A → Nat → TMS9918A)
    (hf : ∀ st k, k < n → f st k = set_pixel (base + k) v (col st k) st)
    (Q : TMS9918A → Prop)
    (hQ : ∀ t : TMS9918A, withoutLine t = withoutLine s → (0 < n → t.render_line = v) →
      (∀ x, t.linebuffer x =
        if base ≤ x ∧ x < base + n then col s (x - base) else s.linebuffer x) → Q t) :
    Q ((List.range n).foldl f s) := by
  obtain ⟨h1, h2, h3⟩ := paint_run v hv base n hb s col hcol f hf
  exact hQ _ h1 h2 h3

/-- The backdrop pass on a visible line: the 256 pixels of the line buffer
hold the palette colour of the backdrop colour and the render line is the
scanline counter. -/
theorem render_backdrop_spec (s : TMS9918A) (hv : s.vcounter < 192) :
    withoutLine (render_backdrop s) = withoutLine s ∧
    (render_backdrop s).render_line = s.vcounter ∧
    ∀ x, (render_backdrop s).linebuffer x =
      if x < 256 then get_color s.backdrop_color else s.linebuffer x := by
  unfold render_backdrop
  dsimp only
  apply paint_run_rule s.vcounter hv 0 256 (by decide) s
    (fun st _ => get_color st.backdrop_color) ?_ _ ?_
    (fun t => withoutLine t = withoutLine s ∧ t.render_line = s.vcounter ∧
      ∀ x, t.linebuffer x = if x < 256 then get_color s.backdrop_color else s.linebuffer x)
  · intro t h1 h2 h3
    refine ⟨h1, h2 (by decide), fun x => ?_⟩
    rw [h3 x]
    split_ifs with c1 c2 c2
    · rfl
    · exfalso; omega
    · exfalso; omega
    · rfl
  · intro st k h
    have c := congrArg TMS9918A.backdrop_color h
    have c2 : st.backdrop_color = s.backdrop_color := c
    show get_color st.backdrop_color = get_color s.backdrop_color
    rw [c2]
  · intro st k _
    rw [Nat.zero_add]

/-- The commit of a line: row `render_line` of the framebuffer receives the
line buffer, the other rows stay, and the line buffer is cleared to black. -/
theorem update_framebuffer_spec (s : TMS9918A) (hr : s.render_line < 192) :
    withoutPixels (update_framebuffer s) = withoutPixels s ∧
    (∀ x, (update_framebuffer s).linebuffer x = ⟨0, 0, 0⟩) ∧
    ∀ i, (update_framebuffer s).framebuffer i =
      if s.render_line * 256 ≤ i ∧ i < s.render_line * 256 + 256
      then s.linebuffer (i - s.render_line * 256) else s.framebuffer i := by
  refine ⟨update_framebuffer_core s, ?_, ?_⟩
  · intro x
    unfold update_framebuffer inRange getHeight
    rw [if_neg (by simp [hr])]
  · unfold update_framebuffer inRange getHeight getWidth
    rw [if_neg (by simp [hr])]
    dsimp only
    have key := foldl_range_inv
      (fun k (st : TMS9918A) => st.linebuffer = s.linebuffer ∧
        ∀ i, st.framebuffer i =
          if s.render_line * 256 ≤ i ∧ i < s.render_line * 256 + k
          then s.linebuffer (i - s.render_line * 256) else s.framebuffer i)
      (fun st xpos =>
        { st with
          framebuffer := Function.update st.framebuffer (xpos + s.render_line * 256)
            (st.linebuffer xpos) })
      256 s
      ⟨rfl, fun i => by rw [if_neg (by omega)]⟩
      (by
        intro k st _ ⟨h1, h2⟩
        refine ⟨h1, fun i => ?_⟩
        show Function.update st.framebuffer (k + s.render_line * 256) (st.linebuffer k) i = _
        by_cases hi : i = k + s.render_line * 256
        · subst hi
          rw [Function.update_same, if_pos (by omega), h1]
          congr 1
          omega
        · rw [Function.update_noteq hi, h2 i]
          split_ifs with c1 c2 c2
          · rfl
          · exfalso; omega
          · exfalso; omega
          · rfl)
    exact key.2

/-! ## The mode renderers -/

/-- The Graphics I pass on a visible line: pixel `x` of the line buffer
holds the colour of pixel `x % 8` of tile column `x / 8`. -/
theorem render_graphics1_spec (s1 : TMS9918A) (hv : s1.vcounter < 192) :
    withoutLine (render_graphics1 s1) = withoutLine s1 ∧
    (0 < 32 → (render_graphics1 s1).render_line = s1.vcounter) ∧
    ∀ x, (render_graphics1 s1).linebuffer x =
      if x < 8 * 32 then
        graphics1_color s1.vram s1.pattern_name s1.color_table s1.pattern_gen
          s1.backdrop_color s1.vcounter (x / 8) (x % 8)
      else s1.linebuffer x := by
  unfold render_graphics1
  dsimp only
  apply foldl_range_inv
    (fun c (st : TMS9918A) => withoutLine st = withoutLine s1 ∧
      (0 < c → st.render_line = s1.vcounter) ∧
      ∀ x, st.linebuffer x =
        if x < 8 * c then
          graphics1_color s1.vram s1.pattern_name s1.color_table s1.pattern_gen
            s1.backdrop_color s1.vcounter (x / 8) (x % 8)
        else s1.linebuffer x)
  · exact ⟨rfl, fun h => absurd h (by omega), fun x => by rw [if_neg (by omega)]⟩
  · intro c st hc ⟨h1, _, h3⟩
    have hshift : c <<< 3 = 8 * c := by rw [Nat.shiftLeft_eq]; omega
    have cv := congrArg TMS9918A.vram h1
    have cb := congrArg TMS9918A.backdrop_color h1
    have ev : st.vram = s1.vram := cv
    have eb : st.backdrop_color = s1.backdrop_color := cb
    apply paint_run_rule s1.vcounter hv (c <<< 3) 8 (by omega) st
      (fun st2 k => graphics1_color st.vram s1.pattern_name s1.color_table s1.pattern_gen
        st2.backdrop_color s1.vcounter c k) ?_ _ ?_
      (fun t => withoutLine t = withoutLine s1 ∧
        (0 < c + 1 → t.render_line = s1.vcounter) ∧
        ∀ x, t.linebuffer x =
          if x < 8 * (c + 1) then
            graphics1_color s1.vram s1.pattern_name s1.color_table s1.pattern_gen
              s1.backdrop_color s1.vcounter (x / 8) (x % 8)
          else s1.linebuffer x)
    · intro t q1 q2 q3
      refine ⟨q1.trans h1, fun _ => q2 (by decide), fun x => ?_⟩
      rw [q3 x, hshift]
      by_cases hx : 8 * c ≤ x ∧ x < 8 * c + 8
      · rw [if_pos hx, if_pos (by omega), ev, eb]
        have e1 : x / 8 = c := by omega
        have e2 : x % 8 = x - 8 * c := by omega
        rw [e1, e2]
      · rw [if_neg hx, h3 x]
        split_ifs with c1 c2 c2
        · rfl
        · exfalso; omega
        · exfalso; omega
        · rfl
    · intro st2 k h
      have c2 := congrArg TMS9918A.backdrop_color h
      have e2 : st2.backdrop_color = st.backdrop_color := c2
      show graphics1_color _ _ _ _ st2.backdrop_color _ _ _ =
        graphics1_color _ _ _ _ st.backdrop_color _ _ _
      rw [e2]
    · intro st2 k hk
      have hw : c <<< 3 + k < getWidth := by rw [hshift]; unfold getWidth; omega
      exact if_pos hw

/-- The text pass on a visible line: pixel `x` of the line buffer, for `x`
from 8 to 247, holds the colour of pixel `(x - 8) % 6` of tile column
`(x - 8) / 6`; the other pixels are as before. -/
theorem render_text1_spec (s1 : TMS9918A) (hv : s1.vcounter < 192) :
    withoutLine (render_text1 s1) = withoutLine s1 ∧
    (0 < 40 → (render_text1 s1).render_line = s1.vcounter) ∧
    ∀ x, (render_text1 s1).linebuffer x =
      if 8 ≤ x ∧ x < 8 + 6 * 40 then
        text1_color s1.vram s1.pattern_name s1.pattern_gen s1.text_color
          s1.backdrop_color s1.vcounter ((x - 8) / 6) ((x - 8) % 6)
      else s1.linebuffer x := by
  unfold render_text1
  dsimp only
  apply foldl_range_inv
    (fun c (st : TMS9918A) => withoutLine st = withoutLine s1 ∧
      (0 < c → st.render_line = s1.vcounter) ∧
      ∀ x, st.linebuffer x =
        if 8 ≤ x ∧ x < 8 + 6 * c then
          text1_color s1.vram s1.pattern_name s1.pattern_gen s1.text_color
            s1.backdrop_color s1.vcounter ((x - 8) / 6) ((x - 8) % 6)
        else s1.linebuffer x)
  · exact ⟨rfl, fun h => absurd h (by omega), fun x => by rw [if_neg (by omega)]⟩
  · intro c st hc ⟨h1, _, h3⟩
    have cv := congrArg TMS9918A.vram h1
    have cb := congrArg TMS9918A.backdrop_color h1
    have ct := congrArg TMS9918A.text_color h1
    have ev : st.vram = s1.vram := cv
    have eb : st.backdrop_color = s1.backdrop_color := cb
    have et : st.text_color = s1.text_color := ct
    apply paint_run_rule s1.vcounter hv (c * 6 + 8) 6 (by omega) st
      (fun st2 k => text1_color st.vram s1.pattern_name s1.pattern_gen st2.text_color
        st2.backdrop_color s1.vcounter c k) ?_ _ ?_
      (fun t => withoutLine t = withoutLine s1 ∧
        (0 < c + 1 → t.render_line = s1.vcounter) ∧
        ∀ x, t.linebuffer x =
          if 8 ≤ x ∧ x < 8 + 6 * (c + 1) then
            text1_color s1.vram s1.pattern_name s1.pattern_gen s1.text_color
              s1.backdrop_color s1.vcounter ((x - 8) / 6) ((x - 8) % 6)
          else s1.linebuffer x)
    · intro t q1 q2 q3
      refine ⟨q1.trans h1, fun _ => q2 (by decide), fun x => ?_⟩
      rw [q3 x]
      by_cases hx : c * 6 + 8 ≤ x ∧ x < c * 6 + 8 + 6
      · rw [if_pos hx, if_pos (by omega), ev, eb, et]
        have e1 : (x - 8) / 6 = c := by omega
        have e2 : (x - 8) % 6 = x - (c * 6 + 8) := by omega
        rw [e1, e2]
      · rw [if_neg hx, h3 x]
        split_ifs with c1 c2 c2
        · rfl
        · exfalso; omega
        · exfalso; omega
        · rfl
    · intro st2 k h
      have c2 := congrArg TMS9918A.backdrop_color h
      have c3 := congrArg TMS9918A.text_color h
      have e2 : st2.backdrop_color = st.backdrop_color := c2
      have e3 : st2.text_color = st.text_color := c3
      show text1_color _ _ _ st2.text_color st2.backdrop_color _ _ _ =
        text1_color _ _ _ st.text_color st.backdrop_color _ _ _
      rw [e2, e3]
    · intro st2 k hk
      have hw : c * 6 + (8 + k) < getWidth := by unfold getWidth; omega
      have e : c * 6 + (8 + k) = c * 6 + 8 + k := by omega
      rw [if_pos hw, e]
      rfl

/-! ## A tick on a visible line -/

theorem render_scanline_disabled (s : TMS9918A) (hdis : s.is_vdp_enabled = false) :
    render_scanline s = some (update_framebuffer (render_backdrop s)) := by
  unfold render_scanline render_disabled
  rw [if_pos (by rw [hdis]; rfl)]

theorem render_scanline_mode0 (s : TMS9918A) (hen : s.is_vdp_enabled = true)
    (hm : s.mode_val = 0) :
    render_scanline s = some (update_framebuffer (render_graphics1 (render_backdrop s))) := by
  unfold render_scanline
  rw [if_neg (by rw [hen]; decide)]
  dsimp only
  rw [render_backdrop_mode, hm]

theorem render_scanline_mode1 (s : TMS9918A) (hen : s.is_vdp_enabled = true)
    (hm : s.mode_val = 1) :
    render_scanline s = some (update_framebuffer (render_text1 (render_backdrop s))) := by
  unfold render_scanline
  rw [if_neg (by rw [hen]; decide)]
  dsimp only
  rw [render_backdrop_mode, hm]

theorem render_scanline_mode2 (s : TMS9918A) (hen : s.is_vdp_enabled = true)
    (hm : s.mode_val = 2) :
    render_scanline s = some (update_framebuffer (render_graphics2 (render_backdrop s))) := by
  unfold render_scanline
  rw [if_neg (by rw [hen]; decide)]
  dsimp only
  rw [render_backdrop_mode, hm]

/-- A tick on a visible line whose renderer commits the line state `L`:
row `vcounter` of the framebuffer receives the line buffer of `L`, the other
rows stay, and the line buffer is black afterwards. -/
theorem tick_row (s L : TMS9918A) (hv : s.vcounter < 192)
    (hL1 : withoutLine L = withoutLine s) (hL2 : L.render_line = s.vcounter)
    (hr : render_scanline s = some (update_framebuffer L)) :
    ∃ t, chipClock s = some t ∧
      (∀ x, x < 256 → pixel t x s.vcounter = L.linebuffer x) ∧
      (∀ i, ¬ (s.vcounter * 256 ≤ i ∧ i < s.vcounter * 256 + 256) →
        t.framebuffer i = s.framebuffer i) ∧
      (∀ x, t.linebuffer x = ⟨0, 0, 0⟩) := by
  have hvis : s.vcounter < getHeight := hv
  have hc : chipClock s = some (advanceLine (update_framebuffer L)) := by
    rw [chipClock_eq, vblankEdge_visible s hvis, if_pos hvis, hr]
    rfl
  obtain ⟨-, u2, u3⟩ := update_framebuffer_spec L (by rw [hL2]; exact hv)
  have cf := congrArg TMS9918A.framebuffer hL1
  have ef : L.framebuffer = s.framebuffer := cf
  obtain ⟨a1, a2⟩ := advanceLine_framebuffer (update_framebuffer L)
  refine ⟨_, hc, ?_, ?_, ?_⟩
  · intro x hx
    unfold pixel getWidth
    rw [a1, u3, hL2, if_pos (by omega)]
    congr 1
    omega
  · intro i hi
    rw [a1, u3, hL2, if_neg hi, ef]
  · intro x
    rw [a2, u2]

/-- What the renderers read is the same in two states that differ in the
line buffer and the render line only. -/
theorem withoutLine_reads (a b : TMS9918A) (h : withoutLine a = withoutLine b) :
    a.vram = b.vram ∧ a.pattern_name = b.pattern_name ∧ a.color_table = b.color_table ∧
    a.pattern_gen = b.pattern_gen ∧ a.text_color = b.text_color ∧
    a.backdrop_color = b.backdrop_color ∧ a.vcounter = b.vcounter := by
  have c1 := congrArg TMS9918A.vram h
  have c2 := congrArg TMS9918A.pattern_name h
  have c3 := congrArg TMS9918A.color_table h
  have c4 := congrArg TMS9918A.pattern_gen h
  have c5 := congrArg TMS9918A.text_color h
  have c6 := congrArg TMS9918A.backdrop_color h
  have c7 := congrArg TMS9918A.vcounter h
  exact ⟨c1, c2, c3, c4, c5, c6, c7⟩

/-- The colour of the Graphics I loop is the palette colour of the index
that the specification describes. -/
theorem graphics1_color_eq (s : TMS9918A) (v c p : Nat) :
    graphics1_color s.vram s.pattern_name s.color_table s.pattern_gen s.backdrop_color v c p
      = get_color (graphics1_index s v c p) := by
  have e5 : ∀ a : Nat, a <<< 5 = a * 32 := fun a => by rw [Nat.shiftLeft_eq]
  have e3 : ∀ a : Nat, a <<< 3 = a * 8 := fun a => by rw [Nat.shiftLeft_eq]
  unfold graphics1_color graphics1_index name_base pattern_base color_base
  simp only [e5, e3]

/-- The colour of the text loop is the palette colour of the index that the
specification describes. -/
theorem text1_color_eq (s : TMS9918A) (v c p : Nat) :
    text1_color s.vram s.pattern_name s.pattern_gen s.text_color s.backdrop_color v c p
      = get_color (text1_index s v c p) := by
  have e3 : ∀ a : Nat, a <<< 3 = a * 8 := fun a => by rw [Nat.shiftLeft_eq]
  unfold text1_color text1_index name_base pattern_base
  simp only [e3]
  by_cases hb : testbit (s.vram (s.pattern_gen <<< 11 +
      s.vram (s.pattern_name <<< 10 + (v >>> 3) * 40 + c) * 8 + (v &&& 7))) (7 - p) = true
  · by_cases ht : s.text_color = 0
    · simp [hb, ht]
    · simp [hb, ht]
  · simp [hb]

/-- A tick on a visible line with the display disabled. -/
theorem tick_disabled_row (s : TMS9918A)
    (hdis : s.is_vdp_enabled = false) (hv : s.vcounter < 192) :
    ∃ t, chipClock s = some t ∧
      (∀ x, x < 256 → pixel t x s.vcounter = get_color s.backdrop_color) ∧
      (∀ i, ¬ (s.vcounter * 256 ≤ i ∧ i < s.vcounter * 256 + 256) →
        t.framebuffer i = s.framebuffer i) ∧
      (∀ x, t.linebuffer x = ⟨0, 0, 0⟩) := by
  obtain ⟨b1, b2, b3⟩ := render_backdrop_spec s hv
  obtain ⟨t, ht, hpix, hrest, hline⟩ :=
    tick_row s (render_backdrop s) hv b1 b2 (render_scanline_disabled s hdis)
  refine ⟨t, ht, fun x hx => ?_, hrest, hline⟩
  rw [hpix x hx, b3 x, if_pos hx]

/-- A tick on a visible line in Graphics I. -/
theorem tick_graphics1_row (s : TMS9918A)
    (hen : s.is_vdp_enabled = true) (hmode : s.mode_val = 0) (hv : s.vcounter < 192) :
    ∃ t, chipClock s = some t ∧
      (∀ x, x < 256 →
        pixel t x s.vcounter = get_color (graphics1_index s s.vcounter (x / 8) (x % 8))) ∧
      (∀ i, ¬ (s.vcounter * 256 ≤ i ∧ i < s.vcounter * 256 + 256) →
        t.framebuffer i = s.framebuffer i) ∧
      (∀ x, t.linebuffer x = ⟨0, 0, 0⟩) := by
  obtain ⟨b1, b2, -⟩ := render_backdrop_spec s hv
  obtain ⟨r1, r2, r3, r4, -, r6, r7⟩ := withoutLine_reads _ _ b1
  obtain ⟨g1, g2, g3⟩ := render_graphics1_spec (render_backdrop s) (by rw [r7]; exact hv)
  obtain ⟨t, ht, hpix, hrest, hline⟩ :=
    tick_row s (render_graphics1 (render_backdrop s)) hv (g1.trans b1)
      (by rw [g2 (by decide), r7]) (render_scanline_mode0 s hen hmode)
  refine ⟨t, ht, fun x hx => ?_, hrest, hline⟩
  rw [hpix x hx, g3, if_pos (by omega), r1, r2, r3, r4, r6, r7, graphics1_color_eq]

/-- A tick on a visible line in text mode. -/
theorem tick_text1_row (s : TMS9918A)
    (hen : s.is_vdp_enabled = true) (hmode : s.mode_val = 1) (hv : s.vcounter < 192) :
    ∃ t, chipClock s = some t ∧
      (∀ x, 8 ≤ x → x < 248 →
        pixel t x s.vcounter =
          get_color (text1_index s s.vcounter ((x - 8) / 6) ((x - 8) % 6))) ∧
      (∀ x, x < 8 ∨ (248 ≤ x ∧ x < 256) →
        pixel t x s.vcounter = get_color s.backdrop_color) ∧
      (∀ i, ¬ (s.vcounter * 256 ≤ i ∧ i < s.vcounter * 256 + 256) →
        t.framebuffer i = s.framebuffer i) ∧
      (∀ x, t.linebuffer x = ⟨0, 0, 0⟩) := by
  obtain ⟨b1, b2, b3⟩ := render_backdrop_spec s hv
  obtain ⟨r1, r2, -, r4, r5, r6, r7⟩ := withoutLine_reads _ _ b1
  obtain ⟨g1, g2, g3⟩ := render_text1_spec (render_backdrop s) (by rw [r7]; exact hv)
  obtain ⟨t, ht, hpix, hrest, hline⟩ :=
    tick_row s (render_text1 (render_backdrop s)) hv (g1.trans b1)
      (by rw [g2 (by decide), r7]) (render_scanline_mode1 s hen hmode)
  refine ⟨t, ht, fun x h8 h248 => ?_, fun x hx => ?_, hrest, hline⟩
  · rw [hpix x (by omega), g3, if_pos (by omega), r1, r2, r4, r5, r6, r7, text1_color_eq]
  · rw [hpix x (by omega), g3, if_neg (by omega), b3 x, if_pos (by omega)]

/-- C17. Disabled display renders the backdrop: from every state with the
display disabled and the scanline counter `v < 192`, whatever VRAM and the
mode index hold, one tick returns and leaves every pixel `(x, v)`, `x` in
`0..255`, of the framebuffer equal to the palette colour (`get_color`) of the
backdrop colour index. -/
theorem disabled_renders_backdrop (s : TMS9918A)
    (hdis : s.is_vdp_enabled = false) (hv : s.vcounter < 192) :
    ∃ t, chipClock s = some t ∧
      ∀ x, x < 256 → pixel t x s.vcounter = get_color s.backdrop_color := by
  obtain ⟨t, ht, hpix, -, -⟩ := tick_disabled_row s hdis hv
  exact ⟨t, ht, hpix⟩

/-- C17 on line 0 of a device right after construction. -/
theorem disabled_renders_backdrop_witness :
    ∃ t, chipClock blank = some t ∧
      ∀ x, x < 256 → pixel t x blank.vcounter = get_color blank.backdrop_color :=
  disabled_renders_backdrop blank rfl (by decide)

/-- C19. Graphics I pixel decoding: from every state with the display
enabled, mode index 0 and scanline counter `v < 192`, one tick returns and
leaves, for every column `c` in `0..31` and pixel `p` in `0..7`, the
framebuffer pixel `(c * 8 + p, v)` equal to the palette colour of the index
`graphics1_index`: with `name = vram[name_base + (v >> 3) * 32 + c]`,
`pat = vram[pattern_base + name * 8 + (v & 7)]` and
`col = vram[color_base + (name >> 3)]` (VRAM as before the tick), the index is
`col >> 4` if bit `7 - p` of `pat` is set and `col & 0x0F` otherwise, replaced
by the backdrop index when it is 0. -/
theorem graphics1_pixels (s : TMS9918A)
    (hen : s.is_vdp_enabled = true) (hmode : s.mode_val = 0) (hv : s.vcounter < 192) :
    ∃ t, chipClock s = some t ∧
      ∀ c p, c < 32 → p < 8 →
        pixel t (c * 8 + p) s.vcounter = get_color (graphics1_index s s.vcounter c p) := by
  obtain ⟨t, ht, hpix, -, -⟩ := tick_graphics1_row s hen hmode hv
  refine ⟨t, ht, fun c p hc hp => ?_⟩
  rw [hpix _ (by omega)]
  have e1 : (c * 8 + p) / 8 = c := by omega
  have e2 : (c * 8 + p) % 8 = p := by omega
  rw [e1, e2]

/-- C19 on line 0 of a device with the display enabled, VRAM all zero and
backdrop colour 4. -/
theorem graphics1_pixels_witness :
    ∃ t, chipClock { blank with is_vdp_enabled := true, backdrop_color := 4 } = some t ∧
      ∀ c p, c < 32 → p < 8 →
        pixel t (c * 8 + p)
            ({ blank with is_vdp_enabled := true, backdrop_color := 4 } : TMS9918A).vcounter =
          get_color (graphics1_index { blank with is_vdp_enabled := true, backdrop_color := 4 }
            ({ blank with is_vdp_enabled := true, backdrop_color := 4 } : TMS9918A).vcounter
            c p) :=
  graphics1_pixels { blank with is_vdp_enabled := true, backdrop_color := 4 } rfl rfl
    (by decide)

/-- C20. Text-mode pixel decoding and margins: from every state with the
display enabled, mode index 1 and scanline counter `v < 192`, one tick returns
and leaves, for every column `c` in `0..39` and pixel `p` in `0..5`, the
framebuffer pixel `(c * 6 + 8 + p, v)` equal to the palette colour of the text
colour if bit `7 - p` of `vram[pattern_base + name * 8 + (v & 7)]` is set and
the text colour is not 0, and of the backdrop colour otherwise, where
`name = vram[name_base + (v >> 3) * 40 + c]`; every pixel `(x, v)` with `x < 8`
or `248 ≤ x < 256` has the palette colour of the backdrop. -/
theorem text1_pixels (s : TMS9918A)
    (hen : s.is_vdp_enabled = true) (hmode : s.mode_val = 1) (hv : s.vcounter < 192) :
    ∃ t, chipClock s = some t ∧
      (∀ c p, c < 40 → p < 6 →
        pixel t (c * 6 + 8 + p) s.vcounter = get_color (text1_index s s.vcounter c p)) ∧
      (∀ x, x < 8 ∨ (248 ≤ x ∧ x < 256) →
        pixel t x s.vcounter = get_color s.backdrop_color) := by
  obtain ⟨t, ht, hpix, hmargin, -, -⟩ := tick_text1_row s hen hmode hv
  refine ⟨t, ht, fun c p hc hp => ?_, hmargin⟩
  rw [hpix _ (by omega) (by omega)]
  have e1 : (c * 6 + 8 + p - 8) / 6 = c := by omega
  have e2 : (c * 6 + 8 + p - 8) % 6 = p := by omega
  rw [e1, e2]

/-- C20 on line 0 of a device with the display enabled, mode index 1, VRAM
all zero, text colour 15 and backdrop colour 4. -/
theorem text1_pixels_witness :
    ∃ t, chipClock
        { blank with
          is_vdp_enabled := true, m1_bit := true, mode_val := 1
          text_color := 15, backdrop_color := 4 } = some t ∧
      ∀ x, x < 8 ∨ (248 ≤ x ∧ x < 256) → pixel t x 0 = get_color 4 := by
  obtain ⟨t, ht, -, h2⟩ := text1_pixels
    { blank with
      is_vdp_enabled := true, m1_bit := true, mode_val := 1
      text_color := 15, backdrop_color := 4 } rfl rfl (by decide)
  exact ⟨t, ht, h2⟩

/-! ## A whole frame -/

/-- A tick below the visible lines returns and leaves the framebuffer as it
was. -/
theorem tick_blanking (s : TMS9918A) (hv : 192 ≤ s.vcounter) :
    ∃ t, chipClock s = some t ∧ t.framebuffer = s.framebuffer := by
  have e : (vblankEdge s).vcounter = s.vcounter := by rw [vblankEdge_effect]
  have hc : chipClock s = some (advanceLine (vblankEdge s)) := by
    rw [chipClock_eq, if_neg (by rw [e]; unfold getHeight; omega)]
    rfl
  refine ⟨_, hc, ?_⟩
  rw [(advanceLine_framebuffer _).1, vblankEdge_effect]

theorem ticks_blanking (n : Nat) (s : TMS9918A) (hv : 192 ≤ s.vcounter)
    (hn : s.vcounter + n ≤ 262) : ∃ t, ticks n s = some t ∧ t.framebuffer = s.framebuffer := by
  induction n generalizing s with
  | zero => exact ⟨s, rfl, rfl⟩
  | succ n ih =>
    obtain ⟨u, hu, hfb⟩ := tick_blanking s hv
    have huv : u.vcounter = (s.vcounter + 1) % 262 := by
      rw [(chipClock_effect s u hu).2.2, advanceLine_vcounter s (by omega)]
    have hstep : ticks (n + 1) s = ticks n u := by
      show (chipClock s).bind (ticks n) = _
      rw [hu]
      rfl
    rw [hstep]
    by_cases h0 : n = 0
    · subst h0
      exact ⟨u, rfl, hfb⟩
    · obtain ⟨t, ht, hfb2⟩ := ih u (by omega) (by omega)
      exact ⟨t, ht, by rw [hfb2, hfb]⟩

/-- With VRAM all zero and the table registers in their ranges, every
Graphics I pixel of a visible line has the backdrop index. -/
theorem graphics1_index_blank (s : TMS9918A) (v c p : Nat)
    (hz : ∀ i, i < 0x4000 → s.vram i = 0) (hv : v < 192) (hc : c < 32)
    (hpn : s.pattern_name ≤ 15) (hct : s.color_table ≤ 255) (hpg : s.pattern_gen ≤ 7) :
    graphics1_index s v c p = s.backdrop_color := by
  have h10 : s.pattern_name <<< 10 = s.pattern_name * 1024 := by rw [Nat.shiftLeft_eq]
  have h6 : s.color_table <<< 6 = s.color_table * 64 := by rw [Nat.shiftLeft_eq]
  have h11 : s.pattern_gen <<< 11 = s.pattern_gen * 2048 := by rw [Nat.shiftLeft_eq]
  have h3 : v >>> 3 = v / 8 := by rw [Nat.shiftRight_eq_div_pow]
  have h7 : v &&& 7 = v % 8 := and_7 v
  have hname : s.vram (name_base s + (v >>> 3) * 32 + c) = 0 := by
    apply hz
    unfold name_base
    rw [h10, h3]
    omega
  have hpat : s.vram (pattern_base s + 0 * 8 + (v &&& 7)) = 0 := by
    apply hz
    unfold pattern_base
    rw [h11, h7]
    omega
  have hcol : s.vram (color_base s + (0 >>> 3)) = 0 := by
    apply hz
    unfold color_base
    rw [h6]
    show s.color_table * 64 + 0 < 0x4000
    omega
  unfold graphics1_index
  simp only [hname, hpat, hcol]
  have e : (if testbit 0 (7 - p) = true then 0 >>> 4 else 0 &&& 0x0F) = 0 := by
    split <;> rfl
  rw [e]
  rfl

/-- The first `n` ticks of a blank Graphics I frame: the rows above line
`n` are painted in the backdrop colour. -/
theorem blank_frame_rows (s : TMS9918A)
    (hz : ∀ i, i < 0x4000 → s.vram i = 0)
    (hen : s.is_vdp_enabled = true) (hmode : s.mode_val = 0) (hv : s.vcounter = 0)
    (hpn : s.pattern_name ≤ 15) (hct : s.color_table ≤ 255) (hpg : s.pattern_gen ≤ 7)
    (n : Nat) (hn : n ≤ 192) :
    ∃ t, ticks n s = some t ∧ t.vcounter = n ∧
      withoutPixels t = withoutPixels
        { s with is_vblank := t.is_vblank, is_irq_gen := t.is_irq_gen, vcounter := t.vcounter } ∧
      ∀ x y, x < 256 → y < n → pixel t x y = get_color s.backdrop_color := by
  induction n with
  | zero => exact ⟨s, rfl, hv, rfl, fun x y _ hy => absurd hy (by omega)⟩
  | succ n ih =>
    obtain ⟨t, ht, htv, hcore, hpix⟩ := ih (by omega)
    have c1 := congrArg TMS9918A.vram hcore
    have c2 := congrArg TMS9918A.is_vdp_enabled hcore
    have c3 := congrArg TMS9918A.mode_val hcore
    have c4 := congrArg TMS9918A.pattern_name hcore
    have c5 := congrArg TMS9918A.color_table hcore
    have c6 := congrArg TMS9918A.pattern_gen hcore
    have c7 := congrArg TMS9918A.backdrop_color hcore
    have e1 : t.vram = s.vram := c1
    have e2 : t.is_vdp_enabled = s.is_vdp_enabled := c2
    have e3 : t.mode_val = s.mode_val := c3
    have e4 : t.pattern_name = s.pattern_name := c4
    have e5 : t.color_table = s.color_table := c5
    have e6 : t.pattern_gen = s.pattern_gen := c6
    have e7 : t.backdrop_color = s.backdrop_color := c7
    have htv2 : t.vcounter < 192 := by omega
    obtain ⟨w, hw, wpix, wrest, -⟩ :=
      tick_graphics1_row t (by rw [e2, hen]) (by rw [e3, hmode]) htv2
    have hwv : w.vcounter = n + 1 := by
      rw [(chipClock_effect t w hw).2.2, advanceLine_vcounter t (by omega), htv]
      omega
    have hwcore := chipClock_core t w hw
    have hrun : ticks (n + 1) s = some w := by
      rw [ticks_add n 1 s, ht]
      show (chipClock t).bind (ticks 0) = some w
      rw [hw]
      rfl
    refine ⟨w, hrun, hwv, ?_, ?_⟩
    · rw [hwcore]
      have hc2 : ∀ (a b : TMS9918A) (vb ig : Bool) (vc : Nat),
          withoutPixels a = withoutPixels b →
          withoutPixels { a with is_vblank := vb, is_irq_gen := ig, vcounter := vc } =
            withoutPixels { b with is_vblank := vb, is_irq_gen := ig, vcounter := vc } := by
        intro a b vb ig vc h
        have := congrArg
          (fun z : TMS9918A => { z with is_vblank := vb, is_irq_gen := ig, vcounter := vc }) h
        exact this
      have h3 := hc2 t _ w.is_vblank w.is_irq_gen w.vcounter hcore
      exact h3
    · intro x y hx hy
      by_cases hyn : y = n
      · subst hyn
        have := wpix x hx
        rw [htv] at this
        rw [this, graphics1_index_blank t y (x / 8) (x % 8) (by rw [e1]; exact hz) (by omega)
          (by omega) (by rw [e4]; exact hpn) (by rw [e5]; exact hct) (by rw [e6]; exact hpg), e7]
      · have := wrest (x + y * 256) (by rw [htv]; omega)
        unfold pixel getWidth
        rw [this]
        exact hpix x y hx (by omega)

/-- A register write of a byte keeps the table registers in their ranges. -/
theorem write_reg_tables (n d : Nat) (t : TMS9918A) (hd : d < 256)
    (h : t.pattern_name ≤ 15 ∧ t.color_table ≤ 255 ∧ t.pattern_gen ≤ 7) :
    (write_reg n d t).pattern_name ≤ 15 ∧ (write_reg n d t).color_table ≤ 255 ∧
    (write_reg n d t).pattern_gen ≤ 7 := by
  obtain ⟨h1, h2, h3⟩ := h
  have hF : d &&& 0xF ≤ 15 := by rw [and_F]; omega
  have h7 : d &&& 0x7 ≤ 7 := by rw [and_7]; omega
  unfold write_reg update_mode
  split
  · exact ⟨h1, h2, h3⟩
  · split
    · exact ⟨h1, h2, h3⟩
    · dsimp only
      split_ifs <;> exact ⟨h1, h2, h3⟩
    · exact ⟨hF, h2, h3⟩
    · exact ⟨h1, Nat.le_of_lt_succ hd, h3⟩
    · exact ⟨h1, h2, h7⟩
    · exact ⟨h1, h2, h3⟩
    · exact ⟨h1, h2, h3⟩

/-- Every call keeps the table registers in their ranges. -/
theorem step_tables (op : Op) (s t : TMS9918A)
    (h : s.pattern_name ≤ 15 ∧ s.color_table ≤ 255 ∧ s.pattern_gen ≤ 7)
    (hstep : step op s = some t) :
    t.pattern_name ≤ 15 ∧ t.color_table ≤ 255 ∧ t.pattern_gen ≤ 7 := by
  cases op with
  | init rnd => cases hstep; exact h
  | writeControl d =>
    cases hstep
    have hb : ∀ x : Nat, (x &&& 0xFF) % 256 < 256 := fun x => Nat.mod_lt _ (by decide)
    unfold writeControl
    split
    · dsimp only
      split
      · unfold increment_addr
        dsimp only
        split <;> exact h
      · exact h
      · exact write_reg_tables _ _ _ (hb _) h
      · exact write_reg_tables _ _ _ (hb _) h
      · exact h
    · exact h
  | writeData d =>
    cases hstep
    unfold writeData increment_addr
    dsimp only
    split <;> exact h
  | readData =>
    cases hstep
    unfold readData increment_addr
    dsimp only
    split <;> exact h
  | readStatus => cases hstep; exact h
  | isInterrupt => cases hstep; exact h
  | chipClock =>
    have e := chipClock_core s t hstep
    have c1 := congrArg TMS9918A.pattern_name e
    have c2 := congrArg TMS9918A.color_table e
    have c3 := congrArg TMS9918A.pattern_gen e
    have e1 : t.pattern_name = s.pattern_name := c1
    have e2 : t.color_table = s.color_table := c2
    have e3 : t.pattern_gen = s.pattern_gen := c3
    rw [e1, e2, e3]
    exact h

/-- In every reachable state the table registers are in the ranges that
`write_reg` gives them: `pattern_name ≤ 15`, `color_table ≤ 255`,
`pattern_gen ≤ 7`. -/
theorem reachable_tables (s : TMS9918A) (hs : Reachable s) :
    s.pattern_name ≤ 15 ∧ s.color_table ≤ 255 ∧ s.pattern_gen ≤ 7 := by
  induction hs with
  | fresh vram fb lb => exact ⟨Nat.zero_le _, Nat.zero_le _, Nat.zero_le _⟩
  | step op s t _ hstep ih => exact step_tables op s t ih hstep

/-- C18. Blank Graphics I frame: from every state in which all 16384 VRAM
bytes are zero, the display is enabled, the mode index is 0 and the scanline
counter is 0, whatever the table registers hold within their ranges
(`pattern_name ≤ 15`, `color_table ≤ 255`, `pattern_gen ≤ 7`, as in every
reachable state), 262 ticks in a row return and leave every one of the
256 x 192 framebuffer pixels equal to the palette colour of the backdrop
index. -/
theorem blank_graphics1_frame (s : TMS9918A)
    (hz : ∀ i, i < 0x4000 → s.vram i = 0)
    (hen : s.is_vdp_enabled = true) (hmode : s.mode_val = 0) (hv : s.vcounter = 0)
    (hpn : s.pattern_name ≤ 15) (hct : s.color_table ≤ 255) (hpg : s.pattern_gen ≤ 7) :
    ∃ t, ticks 262 s = some t ∧
      ∀ x y, x < 256 → y < 192 → pixel t x y = get_color s.backdrop_color := by
  obtain ⟨u, hu, huv, -, hpix⟩ :=
    blank_frame_rows s hz hen hmode hv hpn hct hpg 192 (Nat.le_refl _)
  obtain ⟨t, ht, hfb⟩ := ticks_blanking 70 u (by omega) (by omega)
  refine ⟨t, ?_, fun x y hx hy => ?_⟩
  · have h := ticks_add 192 70 s
    rw [hu, Option.some_bind, ht] at h
    exact h
  · unfold pixel
    rw [hfb]
    exact hpix x y hx hy

/-- C18 at the scenario of the specification: after `R0 := 0`, `R1 := 0xC0`
and `R7 := 0x04` on a device with zeroed VRAM, 262 ticks leave (84, 85, 237)
at (0, 0) and at (255, 191). -/
theorem blank_graphics1_frame_witness :
    ∃ t, ticks 262
        (writeControl 0x87 (writeControl 0x04 (writeControl 0x81 (writeControl 0xC0
          (writeControl 0x80 (writeControl 0x00 blank)))))) = some t ∧
      pixel t 0 0 = ⟨84, 85, 237⟩ ∧ pixel t 255 191 = ⟨84, 85, 237⟩ := by
  obtain ⟨t, ht, hpix⟩ := blank_graphics1_frame
    (writeControl 0x87 (writeControl 0x04 (writeControl 0x81 (writeControl 0xC0
      (writeControl 0x80 (writeControl 0x00 blank))))))
    (fun _ _ => rfl) rfl rfl rfl (by decide) (by decide) (by decide)
  exact ⟨t, ht, hpix 0 0 (by decide) (by decide), hpix 255 191 (by decide) (by decide)⟩

/-! ## Modes without a renderer -/

/-- With the display enabled and a mode index of 3 or more, the scanline
renderer reaches the `default` branch of its switch and ends the process. -/
theorem render_scanline_exits (s : TMS9918A) (hen : s.is_vdp_enabled = true)
    (hm : 3 ≤ s.mode_val) : render_scanline s = none := by
  unfold render_scanline
  rw [if_neg (by rw [hen]; decide)]
  dsimp only
  rw [render_backdrop_mode]
  split
  · rename_i h0
    omega
  · rename_i h1
    omega
  · rename_i h2
    omega
  · rfl

/-- A tick on a visible line with the display enabled and a mode index of 3
or more ends the process. -/
theorem chipClock_exits (s : TMS9918A) (hv : s.vcounter < 192)
    (hen : s.is_vdp_enabled = true) (hm : 3 ≤ s.mode_val) : chipClock s = none := by
  have hvis : s.vcounter < getHeight := hv
  rw [chipClock_eq, vblankEdge_visible s hvis, if_pos hvis, render_scanline_exits s hen hm]
  rfl

/-- C21. The claim that a tick always returns fails on the code: after
`R1 := 0xCB` (display enabled, M3 set, mode index 4, as `mode3_test` leaves
the device) the tick on line 0 reaches `exit(0)` in `render_scanline` and the
process ends. -/
theorem unknown_mode_exits :
    (writeControl 0x81 (writeControl 0xCB blank)).vcounter = 0 ∧
    (writeControl 0x81 (writeControl 0xCB blank)).is_vdp_enabled = true ∧
    (writeControl 0x81 (writeControl 0xCB blank)).mode_val = 4 ∧
    chipClock (writeControl 0x81 (writeControl 0xCB blank)) = none :=
  ⟨rfl, rfl, rfl, chipClock_exits _ (by decide) rfl (by decide)⟩

/-! ## Graphics II and the rows a tick leaves alone -/

/-- A tick on a visible line in Graphics II: the renderer is a stub, the
row shows the backdrop. -/
theorem tick_graphics2_row (s : TMS9918A)
    (hen : s.is_vdp_enabled = true) (hmode : s.mode_val = 2) (hv : s.vcounter < 192) :
    ∃ t, chipClock s = some t ∧
      (∀ x, x < 256 → pixel t x s.vcounter = get_color s.backdrop_color) ∧
      (∀ i, ¬ (s.vcounter * 256 ≤ i ∧ i < s.vcounter * 256 + 256) →
        t.framebuffer i = s.framebuffer i) ∧
      (∀ x, t.linebuffer x = ⟨0, 0, 0⟩) := by
  obtain ⟨b1, b2, b3⟩ := render_backdrop_spec s hv
  have hr : render_scanline s = some (update_framebuffer (render_backdrop s)) :=
    render_scanline_mode2 s hen hmode
  obtain ⟨t, ht, hpix, hrest, hline⟩ := tick_row s (render_backdrop s) hv b1 b2 hr
  refine ⟨t, ht, fun x hx => ?_, hrest, hline⟩
  rw [hpix x hx, b3 x, if_pos hx]

/-- Two framebuffers that agree on row `v` and outside of it are equal. -/
theorem framebuffer_eq_of_rows (f g : Nat → BeeVDPRGB) (v : Nat)
    (hrow : ∀ x, x < 256 → f (x + v * getWidth) = g (x + v * getWidth))
    (hrest : ∀ i, ¬ (v * 256 ≤ i ∧ i < v * 256 + 256) → f i = g i) : f = g := by
  funext i
  by_cases hi : v * 256 ≤ i ∧ i < v * 256 + 256
  · have e : i = (i - v * 256) + v * getWidth := by unfold getWidth; omega
    rw [e]
    exact hrow _ (by omega)
  · exact hrest i hi

/-- C22. Graphics II is a stub that shows only the backdrop: from every
state with the display enabled, mode index 2 and scanline counter `v < 192`,
whatever VRAM holds, one tick returns with exactly the framebuffer and the
line buffer that the same tick gives with the display disabled, and every
pixel of row `v` is the palette colour of the backdrop index. -/
theorem graphics2_stub (s : TMS9918A)
    (hen : s.is_vdp_enabled = true) (hmode : s.mode_val = 2) (hv : s.vcounter < 192) :
    ∃ t w, chipClock s = some t ∧
      chipClock { s with is_vdp_enabled := false } = some w ∧
      t.framebuffer = w.framebuffer ∧ t.linebuffer = w.linebuffer ∧
      ∀ x, x < 256 → pixel t x s.vcounter = get_color s.backdrop_color := by
  obtain ⟨t, ht, tpix, trest, tline⟩ := tick_graphics2_row s hen hmode hv
  obtain ⟨w, hw, wpix, wrest, wline⟩ :=
    tick_disabled_row { s with is_vdp_enabled := false } rfl hv
  refine ⟨t, w, ht, hw, ?_, ?_, tpix⟩
  · apply framebuffer_eq_of_rows _ _ s.vcounter
    · intro x hx
      have e1 := tpix x hx
      have e2 := wpix x hx
      unfold pixel at e1 e2
      rw [e1]
      exact e2.symm
    · intro i hi
      rw [trest i hi]
      exact (wrest i hi).symm
  · funext x
    rw [tline x]
    exact (wline x).symm

/-- C22 on line 0 of a device with the display enabled, M2 set and backdrop
colour 4. -/
theorem graphics2_stub_witness :
    ∃ t w,
      chipClock
        { blank with is_vdp_enabled := true, m2_bit := true, mode_val := 2, backdrop_color := 4 }
        = some t ∧
      chipClock
        { blank with is_vdp_enabled := false, m2_bit := true, mode_val := 2, backdrop_color := 4 }
        = some w ∧
      t.framebuffer = w.framebuffer ∧ t.linebuffer = w.linebuffer ∧
      ∀ x, x < 256 → pixel t x 0 = get_color 4 :=
  graphics2_stub
    { blank with is_vdp_enabled := true, m2_bit := true, mode_val := 2, backdrop_color := 4 }
    rfl rfl (by decide)

/-- A tick on a visible line in which rendering returns: the rows other
than the current one stay and the line buffer is black afterwards. -/
theorem tick_visible_rest (s : TMS9918A)
    (hrender : s.is_vdp_enabled = false ∨ s.mode_val ≤ 2) (hv : s.vcounter < 192) :
    ∃ t, chipClock s = some t ∧
      (∀ i, ¬ (s.vcounter * 256 ≤ i ∧ i < s.vcounter * 256 + 256) →
        t.framebuffer i = s.framebuffer i) ∧
      (∀ x, t.linebuffer x = ⟨0, 0, 0⟩) := by
  by_cases hen : s.is_vdp_enabled = true
  · have hm : s.mode_val ≤ 2 := by
      rcases hrender with h | h
      · rw [h] at hen; cases hen
      · exact h
    have hk : s.mode_val = 0 ∨ s.mode_val = 1 ∨ s.mode_val = 2 := by omega
    rcases hk with hk | hk | hk
    · obtain ⟨t, ht, -, hrest, hline⟩ := tick_graphics1_row s hen hk hv
      exact ⟨t, ht, hrest, hline⟩
    · obtain ⟨t, ht, -, -, hrest, hline⟩ := tick_text1_row s hen hk hv
      exact ⟨t, ht, hrest, hline⟩
    · obtain ⟨t, ht, -, hrest, hline⟩ := tick_graphics2_row s hen hk hv
      exact ⟨t, ht, hrest, hline⟩
  · have hdis : s.is_vdp_enabled = false := by simpa using hen
    obtain ⟨t, ht, -, hrest, hline⟩ := tick_disabled_row s hdis hv
    exact ⟨t, ht, hrest, hline⟩

/-- A tick leaves what the host ports work on as it was. -/
theorem chipClock_host (s t : TMS9918A) (h : chipClock s = some t) :
    t.vram = s.vram ∧ t.addr_register = s.addr_register ∧ t.read_buffer = s.read_buffer ∧
    t.is_second_control_write = s.is_second_control_write := by
  have e := chipClock_core s t h
  have c1 := congrArg TMS9918A.vram e
  have c2 := congrArg TMS9918A.addr_register e
  have c3 := congrArg TMS9918A.read_buffer e
  have c4 := congrArg TMS9918A.is_second_control_write e
  exact ⟨c1, c2, c3, c4⟩

/-- C24. A tick writes exactly one framebuffer row: from every state in
which rendering returns (display disabled, or mode index 0, 1 or 2), a tick
with the scanline counter `v < 192` returns, leaves every framebuffer pixel
outside row `v` as it was and leaves the line buffer entirely black, and a
tick with `v ≥ 192` returns and leaves the whole framebuffer as it was; in
both cases VRAM, the address register, the read buffer and the control latch
are unchanged. -/
theorem tick_writes_one_row (s : TMS9918A)
    (hrender : s.is_vdp_enabled = false ∨ s.mode_val ≤ 2) :
    (s.vcounter < 192 →
      ∃ t, chipClock s = some t ∧
        (∀ x y, x < 256 → y ≠ s.vcounter → pixel t x y = pixel s x y) ∧
        (∀ x, t.linebuffer x = ⟨0, 0, 0⟩) ∧
        t.vram = s.vram ∧ t.addr_register = s.addr_register ∧
        t.read_buffer = s.read_buffer ∧
        t.is_second_control_write = s.is_second_control_write) ∧
    (192 ≤ s.vcounter →
      ∃ t, chipClock s = some t ∧ t.framebuffer = s.framebuffer ∧
        t.vram = s.vram ∧ t.addr_register = s.addr_register ∧
        t.read_buffer = s.read_buffer ∧
        t.is_second_control_write = s.is_second_control_write) := by
  constructor
  · intro hv
    obtain ⟨t, ht, hrest, hline⟩ := tick_visible_rest s hrender hv
    obtain ⟨h1, h2, h3, h4⟩ := chipClock_host s t ht
    refine ⟨t, ht, fun x y hx hy => ?_, hline, h1, h2, h3, h4⟩
    unfold pixel getWidth
    apply hrest
    intro hc
    apply hy
    have hle : s.vcounter * 256 ≤ x + y * 256 := hc.1
    have hlt : x + y * 256 < s.vcounter * 256 + 256 := hc.2
    omega
  · intro hv
    obtain ⟨t, ht, hfb⟩ := tick_blanking s hv
    obtain ⟨h1, h2, h3, h4⟩ := chipClock_host s t ht
    exact ⟨t, ht, hfb, h1, h2, h3, h4⟩

/-- C24 on a device right after construction (line 0, display disabled). -/
theorem tick_writes_one_row_witness :
    ∃ t, chipClock blank = some t ∧
      (∀ x y, x < 256 → y ≠ blank.vcounter → pixel t x y = pixel blank x y) ∧
      (∀ x, t.linebuffer x = ⟨0, 0, 0⟩) ∧
      t.vram = blank.vram ∧ t.addr_register = blank.addr_register ∧
      t.read_buffer = blank.read_buffer ∧
      t.is_second_control_write = blank.is_second_control_write :=
  (tick_writes_one_row blank (Or.inl rfl)).1 (by decide)

/-! ## The first control write -/

theorem and_3F00 (x : Nat) : x &&& 0x3F00 = 256 * (x / 256 % 64) := by
  apply Nat.eq_of_testBit_eq
  intro i
  have h1 : (0x3F00 : Nat) = (2 ^ 6 - 1) <<< 8 := by decide
  have h2 : 256 * (x / 256 % 64) = ((x >>> 8) % 2 ^ 6) <<< 8 := by
    rw [Nat.shiftLeft_eq, Nat.shiftRight_eq_div_pow]; omega
  rw [h2, Nat.testBit_and, h1]
  simp only [Nat.testBit_shiftLeft, Nat.testBit_two_pow_sub_one, Nat.testBit_mod_two_pow,
    Nat.testBit_shiftRight]
  by_cases h : 8 ≤ i
  · have e : 8 + (i - 8) = i := by omega
    simp [h, e]
    by_cases h3 : i < 14
    · have : i - 8 < 6 := by omega
      simp [this]
    · have : ¬ (i - 8 < 6) := by omega
      simp [this]
  · simp [h]

/-- C23, as the code has it. From a state with the control latch clear and
the command word `W`, after `writeControl(b)` with a byte `b` the low byte of
the command word is `b` and its high byte is unchanged, the control latch is
set, and the address register is the low 14 bits of the command word,
`(W & 0x3F00) | b`: its low 8 bits are `b` and its upper 6 bits are bits
8..13 of the command word. They are the upper bits of the address register
before the write, `(L & 0x3F00) | b`, when these agree with the command
word. -/
theorem first_control_write (s : TMS9918A) (b : Nat)
    (hlatch : s.is_second_control_write = false) (hb : b < 256) :
    (writeControl b s).command_word &&& 0xFF = b ∧
    (writeControl b s).command_word &&& 0xFF00 = s.command_word &&& 0xFF00 ∧
    (writeControl b s).is_second_control_write = true ∧
    (writeControl b s).addr_register = (s.command_word &&& 0x3F00) ||| b ∧
    (writeControl b s).addr_register &&& 0xFF = b ∧
    (s.addr_register &&& 0x3F00 = s.command_word &&& 0x3F00 →
      (writeControl b s).addr_register = (s.addr_register &&& 0x3F00) ||| b) := by
  have hcw : (writeControl b s).command_word = 256 * (s.command_word / 256 % 256) + b := by
    rw [writeControl_first b s hlatch]
    exact cw_first s.command_word b hb
  have haddr : (writeControl b s).addr_register
      = (256 * (s.command_word / 256 % 256) + b) % 16384 := by
    rw [writeControl_first b s hlatch]
    show ((s.command_word &&& 0xFF00 ||| b) % 65536) &&& 0x3FFF = _
    rw [cw_first s.command_word b hb, and_3FFF]
  have hor : (s.command_word &&& 0x3F00) ||| b = 256 * (s.command_word / 256 % 64) + b := by
    rw [and_3F00, or_lo _ _ hb]
  have hflag : (writeControl b s).is_second_control_write = true := by
    rw [writeControl_first b s hlatch]
  have h4 : (writeControl b s).addr_register = (s.command_word &&& 0x3F00) ||| b := by
    rw [haddr, hor]
    omega
  refine ⟨?_, ?_, hflag, h4, ?_, ?_⟩
  · rw [hcw, and_FF]
    omega
  · rw [hcw, and_FF00, and_FF00]
    omega
  · rw [haddr, and_FF]
    omega
  · intro h
    rw [h4, h]

/-- C23 on a device right after construction, `b = 0x34`. -/
theorem first_control_write_witness :
    (writeControl 0x34 blank).command_word &&& 0xFF = 0x34 ∧
    (writeControl 0x34 blank).command_word &&& 0xFF00 = blank.command_word &&& 0xFF00 ∧
    (writeControl 0x34 blank).is_second_control_write = true ∧
    (writeControl 0x34 blank).addr_register = (blank.command_word &&& 0x3F00) ||| 0x34 ∧
    (writeControl 0x34 blank).addr_register &&& 0xFF = 0x34 ∧
    (blank.addr_register &&& 0x3F00 = blank.command_word &&& 0x3F00 →
      (writeControl 0x34 blank).addr_register = (blank.addr_register &&& 0x3F00) ||| 0x34) :=
  first_control_write blank 0x34 rfl (by decide)

/-- C23 as stated fails after a read setup to `0x00FF`: the prefetch has
moved the address register on to `0x0100` while the command word is still
`0x00FF`, and the first control write of `0x00` sets the address register to
`0x0000`, not to `(0x0100 & 0x3F00) | 0x00 = 0x0100`. -/
theorem first_control_write_counterexample :
    (writeControl 0x00 (writeControl 0xFF blank)).is_second_control_write = false ∧
    (writeControl 0x00 (writeControl 0xFF blank)).addr_register = 0x0100 ∧
    (writeControl 0x00 (writeControl 0x00 (writeControl 0xFF blank))).addr_register = 0x0000 ∧
    (writeControl 0x00 (writeControl 0x00 (writeControl 0xFF blank))).addr_register ≠
      ((writeControl 0x00 (writeControl 0xFF blank)).addr_register &&& 0x3F00) ||| 0x00 := by
  decide

/-! ## Array accesses stay in range -/

theorem write_reg_vcounter (n d : Nat) (t : TMS9918A) :
    (write_reg n d t).vcounter = t.vcounter ∧ (write_reg n d t).vram = t.vram := by
  have c1 := congrArg TMS9918A.vcounter (write_reg_frame n d t)
  have c2 := congrArg TMS9918A.vram (write_reg_frame n d t)
  exact ⟨c1, c2⟩

/-- A control write changes neither the scanline counter nor VRAM. -/
theorem writeControl_vcounter (d : Nat) (s : TMS9918A) :
    (writeControl d s).vcounter = s.vcounter ∧ (writeControl d s).vram = s.vram := by
  unfold writeControl
  split
  · dsimp only
    split
    · unfold increment_addr
      dsimp only
      split <;> exact ⟨rfl, rfl⟩
    · exact ⟨rfl, rfl⟩
    · exact write_reg_vcounter _ _ _
    · exact write_reg_vcounter _ _ _
    · exact ⟨rfl, rfl⟩
  · exact ⟨rfl, rfl⟩

/-- Every call keeps the scanline counter at most 261. -/
theorem step_vcounter (op : Op) (s t : TMS9918A) (h : s.vcounter ≤ 261)
    (hstep : step op s = some t) : t.vcounter ≤ 261 := by
  cases op with
  | init rnd => cases hstep; exact h
  | writeControl d =>
    cases hstep
    rw [(writeControl_vcounter _ _).1]
    exact h
  | writeData d =>
    cases hstep
    unfold writeData increment_addr
    dsimp only
    split <;> exact h
  | readData =>
    cases hstep
    unfold readData increment_addr
    dsimp only
    split <;> exact h
  | readStatus => cases hstep; exact h
  | isInterrupt => cases hstep; exact h
  | chipClock =>
    rw [(chipClock_effect s t hstep).2.2, advanceLine_vcounter s h]
    omega

/-- In every reachable state the scanline counter is at most 261. -/
theorem reachable_vcounter (s : TMS9918A) (hs : Reachable s) : s.vcounter ≤ 261 := by
  induction hs with
  | fresh vram fb lb => exact Nat.zero_le _
  | step op s t _ hstep ih => exact step_vcounter op s t ih hstep

/-- Every call keeps the VRAM cells bytes. -/
theorem step_vram_bytes (op : Op) (s t : TMS9918A)
    (h : ∀ i, i < 0x4000 → s.vram i < 256) (hstep : step op s = some t) :
    ∀ i, i < 0x4000 → t.vram i < 256 := by
  cases op with
  | init rnd =>
    cases hstep
    intro i hi
    show (if i < 0x4000 then rnd i &&& 0xFF else s.vram i) < 256
    rw [if_pos hi, and_FF]
    omega
  | writeControl d =>
    cases hstep
    rw [(writeControl_vcounter _ _).2]
    exact h
  | writeData d =>
    cases hstep
    intro i hi
    have e : (writeData d.val s).vram = Function.update s.vram s.addr_register d.val := by
      unfold writeData increment_addr
      dsimp only
      split <;> rfl
    rw [e]
    by_cases hia : i = s.addr_register
    · rw [hia, Function.update_same]
      exact d.isLt
    · rw [Function.update_noteq hia]
      exact h i hi
  | readData =>
    cases hstep
    have e : (readData s).2.vram = s.vram := by
      unfold readData increment_addr
      dsimp only
      split <;> rfl
    rw [e]
    exact h
  | readStatus => cases hstep; exact h
  | isInterrupt => cases hstep; exact h
  | chipClock =>
    rw [(chipClock_host s t hstep).1]
    exact h

/-- The three addresses of a Graphics I tile are inside VRAM. -/
theorem graphics1_addrs_lt (pn ct pg v c nb : Nat) (hpn : pn ≤ 15) (hct : ct ≤ 255)
    (hpg : pg ≤ 7) (hv : v < 192) (hc : c < 32) (hnb : nb < 256) :
    pn <<< 10 + (v >>> 3) <<< 5 + c < 0x4000 ∧
    pg <<< 11 + nb <<< 3 + (v &&& 0x7) < 0x4000 ∧
    ct <<< 6 + nb >>> 3 < 0x4000 := by
  have h10 : pn <<< 10 = pn * 1024 := by rw [Nat.shiftLeft_eq]
  have h6 : ct <<< 6 = ct * 64 := by rw [Nat.shiftLeft_eq]
  have h11 : pg <<< 11 = pg * 2048 := by rw [Nat.shiftLeft_eq]
  have h5 : (v >>> 3) <<< 5 = (v / 8) * 32 := by
    rw [Nat.shiftLeft_eq, Nat.shiftRight_eq_div_pow]
  have h3 : nb <<< 3 = nb * 8 := by rw [Nat.shiftLeft_eq]
  have h3r : nb >>> 3 = nb / 8 := by rw [Nat.shiftRight_eq_div_pow]
  have h7 : v &&& 0x7 = v % 8 := and_7 v
  rw [h10, h6, h11, h5, h3, h3r, h7]
  omega

/-- The two addresses of a text tile are inside VRAM. -/
theorem text1_addrs_lt (pn pg v c nb : Nat) (hpn : pn ≤ 15)
    (hpg : pg ≤ 7) (hv : v < 192) (hc : c < 40) (hnb : nb < 256) :
    pn <<< 10 + (v >>> 3) * 40 + c < 0x4000 ∧
    pg <<< 11 + nb <<< 3 + (v &&& 0x7) < 0x4000 := by
  have h10 : pn <<< 10 = pn * 1024 := by rw [Nat.shiftLeft_eq]
  have h11 : pg <<< 11 = pg * 2048 := by rw [Nat.shiftLeft_eq]
  have h5 : v >>> 3 = v / 8 := by rw [Nat.shiftRight_eq_div_pow]
  have h3 : nb <<< 3 = nb * 8 := by rw [Nat.shiftLeft_eq]
  have h7 : v &&& 0x7 = v % 8 := and_7 v
  rw [h10, h11, h5, h3, h7]
  omega

/-- The colour of a Graphics I pixel depends on VRAM through cells of the
array only: two memories that agree below `0x4000` give the same colour. -/
theorem graphics1_color_in_range (vram vram2 : Nat → Nat) (pn ct pg bd v c p : Nat)
    (hpn : pn ≤ 15) (hct : ct ≤ 255) (hpg : pg ≤ 7) (hv : v < 192) (hc : c < 32)
    (hbytes : ∀ i, i < 0x4000 → vram i < 256)
    (hagree : ∀ i, i < 0x4000 → vram2 i = vram i) :
    graphics1_color vram2 pn ct pg bd v c p = graphics1_color vram pn ct pg bd v c p := by
  have hname := (graphics1_addrs_lt pn ct pg v c 0 hpn hct hpg hv hc (by decide)).1
  obtain ⟨-, hpat, hcol⟩ := graphics1_addrs_lt pn ct pg v c _ hpn hct hpg hv hc
    (hbytes _ hname)
  have e1 := hagree _ hname
  have e2 := hagree _ hpat
  have e3 := hagree _ hcol
  unfold graphics1_color
  dsimp only
  rw [e1, e2, e3]

/-- The colour of a text pixel depends on VRAM through cells of the array
only: two memories that agree below `0x4000` give the same colour. -/
theorem text1_color_in_range (vram vram2 : Nat → Nat) (pn pg tc bd v c p : Nat)
    (hpn : pn ≤ 15) (hpg : pg ≤ 7) (hv : v < 192) (hc : c < 40)
    (hbytes : ∀ i, i < 0x4000 → vram i < 256)
    (hagree : ∀ i, i < 0x4000 → vram2 i = vram i) :
    text1_color vram2 pn pg tc bd v c p = text1_color vram pn pg tc bd v c p := by
  have hname := (text1_addrs_lt pn pg v c 0 hpn hpg hv hc (by decide)).1
  obtain ⟨-, hpat⟩ := text1_addrs_lt pn pg v c _ hpn hpg hv hc (hbytes _ hname)
  have e1 := hagree _ hname
  have e2 := hagree _ hpat
  unfold text1_color
  dsimp only
  rw [e1, e2]

theorem graphics1_reads_lt (s : TMS9918A) (hpn : s.pattern_name ≤ 15)
    (hct : s.color_table ≤ 255) (hpg : s.pattern_gen ≤ 7) (hv : s.vcounter < 192)
    (hbytes : ∀ i, i < 0x4000 → s.vram i < 256) :
    ∀ i, i ∈ graphics1_reads s → i < 0x4000 := by
  unfold graphics1_reads
  dsimp only
  apply foldl_range_inv (fun _ (reads : List Nat) => ∀ i, i ∈ reads → i < 0x4000)
  · intro i hi
    cases hi
  · intro c reads hc ih i hi
    have hname := (graphics1_addrs_lt s.pattern_name s.color_table s.pattern_gen s.vcounter c 0
      hpn hct hpg hv hc (by decide)).1
    obtain ⟨-, hpat, hcol⟩ := graphics1_addrs_lt s.pattern_name s.color_table s.pattern_gen
      s.vcounter c _ hpn hct hpg hv hc (hbytes _ hname)
    rcases List.mem_append.mp hi with h | h
    · exact ih i h
    · simp only [List.mem_cons, List.mem_singleton, List.not_mem_nil, or_false] at h
      rcases h with h | h | h
      · rw [h]; exact hname
      · rw [h]; exact hpat
      · rw [h]; exact hcol

theorem text1_reads_lt (s : TMS9918A) (hpn : s.pattern_name ≤ 15)
    (hpg : s.pattern_gen ≤ 7) (hv : s.vcounter < 192)
    (hbytes : ∀ i, i < 0x4000 → s.vram i < 256) :
    ∀ i, i ∈ text1_reads s → i < 0x4000 := by
  unfold text1_reads
  dsimp only
  apply foldl_range_inv (fun _ (reads : List Nat) => ∀ i, i ∈ reads → i < 0x4000)
  · intro i hi
    cases hi
  · intro c reads hc ih i hi
    have hname := (text1_addrs_lt s.pattern_name s.pattern_gen s.vcounter c 0
      hpn hpg hv hc (by decide)).1
    obtain ⟨-, hpat⟩ := text1_addrs_lt s.pattern_name s.pattern_gen
      s.vcounter c _ hpn hpg hv hc (hbytes _ hname)
    rcases List.mem_append.mp hi with h | h
    · exact ih i h
    · simp only [List.mem_cons, List.mem_singleton, List.not_mem_nil, or_false] at h
      rcases h with h | h
      · rw [h]; exact hname
      · rw [h]; exact hpat

theorem backdrop_xpos_lt : ∀ x, x ∈ backdrop_xpos → x < 256 := by
  unfold backdrop_xpos
  apply foldl_range_inv (fun _ (xs : List Nat) => ∀ x, x ∈ xs → x < 256)
  · intro x hx
    cases hx
  · intro k xs hk ih x hx
    rcases List.mem_append.mp hx with h | h
    · exact ih x h
    · rw [List.mem_singleton.mp h]
      exact hk

theorem graphics1_xpos_lt : ∀ x, x ∈ graphics1_xpos → x < 256 := by
  unfold graphics1_xpos
  apply foldl_range_inv (fun _ (xs : List Nat) => ∀ x, x ∈ xs → x < 256)
  · intro x hx
    cases hx
  · intro c xs _ ih
    apply foldl_range_inv (fun _ (xs2 : List Nat) => ∀ x, x ∈ xs2 → x < 256)
    · exact ih
    · intro p xs2 _ ih2 x hx
      dsimp only at hx
      split at hx
      · rename_i hw
        rcases List.mem_append.mp hx with h | h
        · exact ih2 x h
        · rw [List.mem_singleton.mp h]
          exact hw
      · exact ih2 x hx

theorem text1_xpos_lt : ∀ x, x ∈ text1_xpos → x < 256 := by
  unfold text1_xpos
  apply foldl_range_inv (fun _ (xs : List Nat) => ∀ x, x ∈ xs → x < 256)
  · intro x hx
    cases hx
  · intro c xs _ ih
    apply foldl_range_inv (fun _ (xs2 : List Nat) => ∀ x, x ∈ xs2 → x < 256)
    · exact ih
    · intro p xs2 _ ih2 x hx
      dsimp only at hx
      split at hx
      · rename_i hw
        rcases List.mem_append.mp hx with h | h
        · exact ih2 x h
        · rw [List.mem_singleton.mp h]
          exact hw
      · exact ih2 x hx

theorem framebuffer_writes_lt (s : TMS9918A) :
    ∀ i, i ∈ framebuffer_writes s → i < 256 * 192 := by
  unfold framebuffer_writes
  split
  · intro i hi
    cases hi
  · rename_i hr
    have hline : s.render_line < 192 := by
      unfold inRange getHeight at hr
      simpa using hr
    dsimp only
    unfold getWidth
    apply foldl_range_inv (fun _ (ws : List Nat) => ∀ i, i ∈ ws → i < 256 * 192)
    · intro i hi
      cases hi
    · intro k ws hk ih i hi
      rcases List.mem_append.mp hi with h | h
      · exact ih i h
      · rw [List.mem_singleton.mp h]
        omega

/-- C25. Renderer memory safety by range: in every state reachable from a
freshly constructed device the derived fields satisfy `pattern_name ≤ 15`,
`pattern_gen ≤ 7`, `color_table ≤ 255` and the scanline counter is at most
261; under these bounds, on a visible line and with bytes in VRAM, every
VRAM index that `render_graphics1` computes (name, pattern and colour
address) and that `render_text1` computes (name and pattern address) is below
`0x4000`, every `xpos` passed to `set_pixel` is below 256, and every
framebuffer index that `update_framebuffer` writes is below `256 * 192`. -/
theorem renderer_in_bounds :
    (∀ s : TMS9918A, Reachable s →
      s.pattern_name ≤ 15 ∧ s.pattern_gen ≤ 7 ∧ 0 ≤ s.color_table ∧ s.color_table ≤ 255 ∧
      s.vcounter ≤ 261) ∧
    (∀ s : TMS9918A, s.pattern_name ≤ 15 → s.pattern_gen ≤ 7 → s.color_table ≤ 255 →
      s.vcounter < 192 → (∀ i, i < 0x4000 → s.vram i < 256) →
      (∀ i, i ∈ graphics1_reads s → i < 0x4000) ∧
      (∀ i, i ∈ text1_reads s → i < 0x4000)) ∧
    (∀ x, x ∈ backdrop_xpos → x < 256) ∧
    (∀ x, x ∈ graphics1_xpos → x < 256) ∧
    (∀ x, x ∈ text1_xpos → x < 256) ∧
    (∀ s : TMS9918A, ∀ i, i ∈ framebuffer_writes s → i < 256 * 192) := by
  refine ⟨?_, ?_, backdrop_xpos_lt, graphics1_xpos_lt, text1_xpos_lt, framebuffer_writes_lt⟩
  · intro s hs
    obtain ⟨h1, h2, h3⟩ := reachable_tables s hs
    exact ⟨h1, h3, Nat.zero_le _, h2, reachable_vcounter s hs⟩
  · intro s hpn hpg hct hv hbytes
    exact ⟨graphics1_reads_lt s hpn hct hpg hv hbytes, text1_reads_lt s hpn hpg hv hbytes⟩

end BeeVDP
